import Mathlib

/-!
# Verification of the `trip_kinematics` Robot module

This file gives a shallow embedding of `src/trip_kinematics/Robot.py`
(class `Robot`, class `SimpleInvKinSolver`, function `forward_kinematics`)
and settles the specification claims about it.

The classes `Transformation` and `KinematicGroup` live in files of the
repository that are not part of the provided sources; they are modelled
from the specification, as marked in their doc comments.  State values are
represented by integers (a kernel-computable stand-in for Python floats;
no claim here depends on non-integral values), Python dicts by insertion-ordered association
lists, and the potentially non-terminating ancestor-resolution `while`
loop by an explicit iteration budget (`fuel`) counting loop-condition
checks, where the outcome `running` means the loop has not exited within
that budget.
-/

/-- A 4×4 homogeneous transformation matrix with integer entries
(the numerical matrices are supplied by an external algebra library;
only their 4×4 shape and multiplication are relevant here). -/
structure Mat4 where
  a00 : ℤ
  a01 : ℤ
  a02 : ℤ
  a03 : ℤ
  a10 : ℤ
  a11 : ℤ
  a12 : ℤ
  a13 : ℤ
  a20 : ℤ
  a21 : ℤ
  a22 : ℤ
  a23 : ℤ
  a30 : ℤ
  a31 : ℤ
  a32 : ℤ
  a33 : ℤ
deriving DecidableEq, Repr

/-- Modelled from the spec: `identity_transformation()` from the utility
module returns the 4×4 identity matrix. -/
def identity_transformation : Mat4 :=
  ⟨1,0,0,0, 0,1,0,0, 0,0,1,0, 0,0,0,1⟩

/-- Matrix multiplication of 4×4 homogeneous matrices (the `@` operator
of the external matrix library). -/
def matMul (A B : Mat4) : Mat4 where
  a00 := A.a00*B.a00 + A.a01*B.a10 + A.a02*B.a20 + A.a03*B.a30
  a01 := A.a00*B.a01 + A.a01*B.a11 + A.a02*B.a21 + A.a03*B.a31
  a02 := A.a00*B.a02 + A.a01*B.a12 + A.a02*B.a22 + A.a03*B.a32
  a03 := A.a00*B.a03 + A.a01*B.a13 + A.a02*B.a23 + A.a03*B.a33
  a10 := A.a10*B.a00 + A.a11*B.a10 + A.a12*B.a20 + A.a13*B.a30
  a11 := A.a10*B.a01 + A.a11*B.a11 + A.a12*B.a21 + A.a13*B.a31
  a12 := A.a10*B.a02 + A.a11*B.a12 + A.a12*B.a22 + A.a13*B.a32
  a13 := A.a10*B.a03 + A.a11*B.a13 + A.a12*B.a23 + A.a13*B.a33
  a20 := A.a20*B.a00 + A.a21*B.a10 + A.a22*B.a20 + A.a23*B.a30
  a21 := A.a20*B.a01 + A.a21*B.a11 + A.a22*B.a21 + A.a23*B.a31
  a22 := A.a20*B.a02 + A.a21*B.a12 + A.a22*B.a22 + A.a23*B.a32
  a23 := A.a20*B.a03 + A.a21*B.a13 + A.a22*B.a23 + A.a23*B.a33
  a30 := A.a30*B.a00 + A.a31*B.a10 + A.a32*B.a20 + A.a33*B.a30
  a31 := A.a30*B.a01 + A.a31*B.a11 + A.a32*B.a21 + A.a33*B.a31
  a32 := A.a30*B.a02 + A.a31*B.a12 + A.a32*B.a22 + A.a33*B.a32
  a33 := A.a30*B.a03 + A.a31*B.a13 + A.a32*B.a23 + A.a33*B.a33

/-- A translation matrix, used to build concrete test robots. -/
def transMat (x y z : ℤ) : Mat4 :=
  ⟨1,0,0,x, 0,1,0,y, 0,0,1,z, 0,0,0,1⟩

/-- Association list as a Python dict: ordered, unique keys assumed where
the Python dict guarantees them.  `alistSet` mirrors `d[k] = v`: an
existing key keeps its position and gets the new value, a new key is
appended at the end. -/
def alistSet {α : Type} : List (String × α) → String → α → List (String × α)
  | [], k, v => [(k, v)]
  | p :: rest, k, v =>
    if p.1 = k then (k, v) :: rest else p :: alistSet rest k v

/-- The keys of an association list, in order. -/
def alistKeys {α : Type} (m : List (String × α)) : List String :=
  m.map Prod.fst

/-- A state dictionary mapping parameter names to values
(`Dict[str, float]`). -/
abbrev AState := List (String × ℤ)

/-- A virtual state dictionary mapping transformation names to parameter
dictionaries (`Dict[str, Dict[str, float]]`). -/
abbrev VState := List (String × AState)

/-- Modelled from the spec: class `Transformation` (its file is not among
the provided sources).  A named parametric pose operator; only the bound
values of its declared state variables change at runtime, and its 4×4
matrix is a function of that state (fixed parameters and the rotation
convention are folded into the opaque `matrix` function). -/
structure Transformation where
  name : String
  state : AState
  matrix : AState → Mat4

/-- Modelled from the spec: class `KinematicGroup` (its file is not among
the provided sources).  A named node composing an ordered list of virtual
transformations, with a parent name (a root's parent equals its own
name), an actuated state, an opaque `virtual_to_actuated` mapping
function, and a slot for the auxiliary hint forwarded to the mapping
functions. -/
structure KinematicGroup where
  name : String
  parent : String
  vtrafos : List Transformation
  actuated : AState
  v2a : VState → AState
  hint_v_to_a : Option ℤ := none

/-- Modelled from the spec: `get_virtual_state` returns the full current
snapshot of the group's virtual state, keyed by transformation name. -/
def KinematicGroup.get_virtual_state (g : KinematicGroup) : VState :=
  (g.vtrafos.filter (fun t => t.state ≠ [])).map (fun t => (t.name, t.state))

/-- Modelled from the spec: `get_actuated_state` returns the full current
actuated-state snapshot. -/
def KinematicGroup.get_actuated_state (g : KinematicGroup) : AState :=
  g.actuated

/-- Modelled from the spec: `get_transformation_matrix` is the ordered
product of the member transformations' matrices at the current state. -/
def KinematicGroup.get_transformation_matrix (g : KinematicGroup) : Mat4 :=
  (g.vtrafos.map (fun t => t.matrix t.state)).foldl matMul identity_transformation

/-- Update the bound values of the state variables named in `upd`,
leaving other variables unchanged (the merge part of `set_state`). -/
def updateState (s : AState) (upd : AState) : AState :=
  s.map (fun p => match upd.lookup p.1 with
    | some v => (p.1, v)
    | none => p)

/-- Modelled from the spec: a group's `set_virtual_state` updates the
state of the transformations named in the partial map and then invokes
`virtual_to_actuated` on the new virtual state to recompute the actuated
state. -/
def KinematicGroup.set_virtual_state (g : KinematicGroup) (upd : VState) :
    KinematicGroup :=
  let vtrafos := g.vtrafos.map (fun t => match upd.lookup t.name with
    | some tUpd => { t with state := updateState t.state tUpd }
    | none => t)
  let g := { g with vtrafos := vtrafos }
  { g with actuated := g.v2a g.get_virtual_state }

/-- Modelled from the spec: a group's `set_actuated_state` overwrites the
named actuated values (the virtual recomputation through
`actuated_to_virtual` is irrelevant to the claims and omitted from the
group model). -/
def KinematicGroup.set_actuated_state (g : KinematicGroup) (upd : AState) :
    KinematicGroup :=
  { g with actuated := updateState g.actuated upd }

/-- Modelled from the spec: `pass_arg_v_to_a` stores an auxiliary hint
forwarded to the group's `virtual_to_actuated` mapping function. -/
def KinematicGroup.pass_arg_v_to_a (g : KinematicGroup) (arg : ℤ) :
    KinematicGroup :=
  { g with hint_v_to_a := some arg }

/-- Modelled from the spec: the composite actuated key of an Open group,
formed from the transformation name and the parameter name. -/
def compositeKey (tname pname : String) : String :=
  tname ++ "_" ++ pname

/-- Modelled from the spec: the actuated state of an Open group is its
virtual state flattened under composite `(transformation, parameter)`
keys. -/
def openActuated (ts : List Transformation) : AState :=
  ts.flatMap (fun t => t.state.map (fun p => (compositeKey t.name p.1, p.2)))

/-- Modelled from the spec: the `virtual_to_actuated` mapping of an Open
group is the identity up to re-keying. -/
def openV2A (v : VState) : AState :=
  v.flatMap (fun tv => tv.2.map (fun p => (compositeKey tv.1 p.1, p.2)))

/-- Modelled from the spec: `OpenKinematicGroup(name, ts, parent)` wraps
the transformations into a group whose actuated state equals its virtual
state; omitting the parent makes the group a root (parent = own name). -/
def OpenKinematicGroup (name : String) (ts : List Transformation)
    (parent : Option String) : KinematicGroup where
  name := name
  parent := parent.getD name
  vtrafos := ts
  actuated := openActuated ts
  v2a := openV2A

/-- The Python `KeyError`s raised by the `Robot` class, by raise site. -/
inductive RobotError
  /-- "More than one robot actuator has the same name!…" -/
  | dupActuator
  /-- "More than one robot virtual transformation has the same name!…" -/
  | dupVirtual
  /-- A `KeyError` from a failed dictionary lookup of a group name. -/
  | missingGroup (name : String)
  /-- A `KeyError` from `self._actuator_group_mapping[key]`. -/
  | missingActuatorKey (key : String)
  /-- A `KeyError` from `self._virtual_group_mapping[key]`. -/
  | missingVirtualKey (key : String)
deriving DecidableEq, Repr

/-- The two construction-time errors are the naming-conflict errors. -/
def RobotError.isNamingConflict : RobotError → Bool
  | .dupActuator => true
  | .dupVirtual => true
  | _ => false

/-- An element of the `kinematic_chain` list passed to `Robot.__init__`:
either a bare `Transformation` or a `KinematicGroup`. -/
inductive ChainElem
  | trafo (t : Transformation)
  | group (g : KinematicGroup)

/-- Python `str(elem)`, which is the element's name for both classes. -/
def ChainElem.str : ChainElem → String
  | .trafo t => t.name
  | .group g => g.name

/-- The `Robot` object: `_group_dict`, `_actuator_group_mapping` and
`_virtual_group_mapping`, all insertion-ordered dictionaries. -/
structure Robot where
  group_dict : List (String × KinematicGroup)
  actuator_group_mapping : List (String × String)
  virtual_group_mapping : List (String × String)

/-- The accumulator of the `Robot.__init__` loop, together with the
warnings printed for auto-wrapped transformations. -/
structure InitState where
  group_dict : List (String × KinematicGroup) := []
  amap : List (String × String) := []
  vmap : List (String × String) := []
  warnings : List String := []

/-- The inner key-registration loop of `Robot.__init__`: for each key,
raise the given duplicate error if the key is already mapped, otherwise
map it to the group's name. -/
def addMappingKeys (err : RobotError) (gname : String) :
    List String → List (String × String) → Except RobotError (List (String × String))
  | [], m => .ok m
  | k :: ks, m =>
    if (m.lookup k).isSome then .error err
    else addMappingKeys err gname ks (m ++ [(k, gname)])

/-- The key-registration step of `Robot.__init__` for one group: only
groups with a non-empty virtual state register their actuated and
virtual keys. -/
def registerGroupKeys (g : KinematicGroup) (st : InitState) :
    Except RobotError InitState :=
  if g.get_virtual_state ≠ [] then
    match addMappingKeys .dupActuator g.name
        (alistKeys g.get_actuated_state) st.amap with
    | .error e => .error e
    | .ok amap =>
      match addMappingKeys .dupVirtual g.name
          (alistKeys g.get_virtual_state) st.vmap with
      | .error e => .error e
      | .ok vmap => .ok { st with amap := amap, vmap := vmap }
  else .ok st

/-- The warning printed when a bare transformation is auto-wrapped. -/
def wrapWarning (tname parentStr : String) : String :=
  "Warning: Transformation " ++ tname ++
    " was converted to a OpenKinematicGroup with parent " ++ parentStr

/-- The main loop of `Robot.__init__` over the kinematic chain.  `prev`
is the name of the previous list element (`str(kinematic_chain[i-1])`);
`lastName` is the name of the last list element, which Python's negative
indexing makes `kinematic_chain[i-1]` at `i = 0` (it is only used in the
warning text, because wrapping at position 0 takes the parentless
branch). -/
def initLoop (lastName : String) :
    List ChainElem → Option String → InitState → Except RobotError InitState
  | [], _, st => .ok st
  | e :: rest, prev, st =>
    match e with
    | .group g =>
      match registerGroupKeys g
          { st with group_dict := alistSet st.group_dict g.name g } with
      | .error err => .error err
      | .ok st' => initLoop lastName rest (some g.name) st'
    | .trafo t =>
      let st := { st with
        warnings := st.warnings ++ [wrapWarning t.name (prev.getD lastName)] }
      match prev with
      | some pname =>
        match st.group_dict.lookup pname with
        | none => .error (.missingGroup pname)
        | some pg =>
          let g := OpenKinematicGroup t.name [t] (some pg.name)
          match registerGroupKeys g
              { st with group_dict := alistSet st.group_dict t.name g } with
          | .error err => .error err
          | .ok st' => initLoop lastName rest (some t.name) st'
      | none =>
        let g := OpenKinematicGroup t.name [t] none
        match registerGroupKeys g
            { st with group_dict := alistSet st.group_dict t.name g } with
        | .error err => .error err
        | .ok st' => initLoop lastName rest (some t.name) st'

/-- `Robot.__init__`: returns the constructed robot and the printed
warnings, or the first `KeyError` raised. -/
def Robot.init (chain : List ChainElem) :
    Except RobotError (Robot × List String) :=
  match initLoop ((chain.getLast?).elim "" ChainElem.str) chain none {} with
  | .error e => .error e
  | .ok st => .ok (⟨st.group_dict, st.amap, st.vmap⟩, st.warnings)

/-- The loop of `Robot.set_virtual_state`: each key is routed through
`_virtual_group_mapping` individually and the owning group's setter is
called with the singleton dictionary `{key: state[key]}`.  The first
component records the setter invocations performed, as
`(group name, argument)` pairs in call order. -/
def setVirtualLoop (r : Robot) :
    List (String × AState) → List (String × VState) × Except RobotError Robot
  | [] => ([], .ok r)
  | (key, val) :: rest =>
    match r.virtual_group_mapping.lookup key with
    | none => ([], .error (.missingVirtualKey key))
    | some gname =>
      match r.group_dict.lookup gname with
      | none => ([], .error (.missingGroup gname))
      | some g =>
        ((gname, [(key, val)]) ::
          (setVirtualLoop { r with group_dict := alistSet r.group_dict gname (g.set_virtual_state [(key, val)]) } rest).1,
         (setVirtualLoop { r with group_dict := alistSet r.group_dict gname (g.set_virtual_state [(key, val)]) } rest).2)

/-- `Robot.set_virtual_state`, instrumented with the trace of group-level
setter invocations it performs. -/
def Robot.set_virtual_stateT (r : Robot) (state : List (String × AState)) :
    List (String × VState) × Except RobotError Robot :=
  setVirtualLoop r state

/-- The batching loop of `Robot.set_actuated_state`: build `grouping`,
keyed by owning group in order of first appearance, each value being the
sub-dictionary of `state` owned by that group, raising a `KeyError` on a
key absent from `_actuator_group_mapping`. -/
def buildGrouping (amap : List (String × String)) :
    List (String × ℤ) → List (String × AState) →
    Except RobotError (List (String × AState))
  | [], grouping => .ok grouping
  | (key, v) :: rest, grouping =>
    match amap.lookup key with
    | none => .error (.missingActuatorKey key)
    | some gname =>
      let grouping :=
        if (grouping.lookup gname).isSome then grouping
        else grouping ++ [(gname, [])]
      let grouping :=
        grouping.map (fun p => if p.1 = gname then (p.1, p.2 ++ [(key, v)]) else p)
      buildGrouping amap rest grouping

/-- The delegation loop of `Robot.set_actuated_state`: call each owning
group's `set_actuated_state` with its batched sub-dictionary, recording
the performed invocations. -/
def applyGrouping (r : Robot) :
    List (String × AState) → List (String × AState) × Except RobotError Robot
  | [] => ([], .ok r)
  | (gname, sub) :: rest =>
    match r.group_dict.lookup gname with
    | none => ([], .error (.missingGroup gname))
    | some g =>
      ((gname, sub) ::
        (applyGrouping { r with group_dict := alistSet r.group_dict gname (g.set_actuated_state sub) } rest).1,
       (applyGrouping { r with group_dict := alistSet r.group_dict gname (g.set_actuated_state sub) } rest).2)

/-- `Robot.set_actuated_state`, instrumented with the trace of group-level
setter invocations: the batching phase runs to completion (or raises)
before the delegation phase performs any setter call. -/
def Robot.set_actuated_stateT (r : Robot) (state : List (String × ℤ)) :
    List (String × AState) × Except RobotError Robot :=
  match buildGrouping r.actuator_group_mapping state [] with
  | .error e => ([], .error e)
  | .ok grouping => applyGrouping r grouping

/-- The groups' states are read, never written, by the getters; the
threaded form returns the group unchanged.  Modelled from the spec:
`get_actuated_state` is a snapshot read. -/
def KinematicGroup.get_actuated_stateS (g : KinematicGroup) :
    AState × KinematicGroup :=
  (g.get_actuated_state, g)

/-- The loop of `Robot.get_actuated_state`, threading the robot through
the per-group reads (`self._group_dict[key].get_actuated_state()`) and
merging the returned dictionaries. -/
def getActuatedLoop (r : Robot) : List String → AState → AState × Robot
  | [], acc => (acc, r)
  | k :: ks, acc =>
    match r.group_dict.lookup k with
    | none => (acc, r)
    | some g =>
      let (st, g') := g.get_actuated_stateS
      getActuatedLoop { r with group_dict := alistSet r.group_dict k g' } ks
        (st.foldl (fun a q => alistSet a q.1 q.2) acc)

/-- `Robot.get_actuated_state` in state-threaded form. -/
def Robot.get_actuated_stateS (r : Robot) : AState × Robot :=
  getActuatedLoop r (alistKeys r.group_dict) []

/-- `Robot.get_actuated_state`: the combined actuated state of all
groups. -/
def Robot.get_actuated_state (r : Robot) : AState :=
  r.get_actuated_stateS.1

/-- The loop of `Robot.pass_group_arg_v_to_a`: check each key names a
group, then forward the hint to that group. -/
def passArgLoop (r : Robot) :
    List (String × ℤ) → Except RobotError Robot
  | [] => .ok r
  | (key, a) :: rest =>
    match r.group_dict.lookup key with
    | none => .error (.missingGroup key)
    | some g =>
      passArgLoop
        { r with group_dict := alistSet r.group_dict key (g.pass_arg_v_to_a a) }
        rest

/-- `Robot.pass_group_arg_v_to_a`. -/
def Robot.pass_group_arg_v_to_a (r : Robot) (argv : List (String × ℤ)) :
    Except RobotError Robot :=
  passArgLoop r argv

/-- Outcome of the ancestor-resolution `while` loop shared by
`forward_kinematics` and `Robot.get_symbolic_rep`: the base-to-target
path, a `KeyError` from a parent lookup, or `running` when the loop has
not exited within the iteration budget. -/
inductive ChainResult
  | ok (path : List String)
  | keyError (name : String)
  | running
deriving DecidableEq, Repr

/-- The `while current_parent != current_key` loop: follow parent links,
prepending each visited group so that the accumulator ends in the
base-to-target order produced by the final `reverse`.  `fuel` counts
loop-condition checks. -/
def resolveChainAux (parentOf : String → Option String) :
    Nat → String → String → List String → ChainResult
  | 0, _, _, _ => .running
  | fuel+1, current_key, current_parent, acc =>
    if current_parent = current_key then .ok acc
    else
      match parentOf current_parent with
      | none => .keyError current_parent
      | some p => resolveChainAux parentOf fuel current_parent p (current_parent :: acc)

/-- Parent lookup through the robot's group dictionary
(`group_dict[current_parent].parent`). -/
def Robot.parentOf (r : Robot) (n : String) : Option String :=
  (r.group_dict.lookup n).map KinematicGroup.parent

/-- Ancestor-chain resolution from a target group, as performed by both
`forward_kinematics` and `Robot.get_symbolic_rep`. -/
def Robot.resolveChain (r : Robot) (endeffector : String) (fuel : Nat) :
    ChainResult :=
  match r.group_dict.lookup endeffector with
  | none => .keyError endeffector
  | some g => resolveChainAux r.parentOf fuel endeffector g.parent [endeffector]

/-- Outcome of `forward_kinematics`. -/
inductive FKResult
  | ok (m : Mat4)
  | keyError (name : String)
  | running
deriving DecidableEq, Repr

/-- The multiplication loop of `forward_kinematics`:
`transformation = transformation @ group.get_transformation_matrix()`
over the resolved base-to-target path. -/
def fkFold (r : Robot) : List String → Mat4 → FKResult
  | [], m => .ok m
  | k :: ks, m =>
    match r.group_dict.lookup k with
    | none => .keyError k
    | some g => fkFold r ks (matMul m g.get_transformation_matrix)

/-- `forward_kinematics(robot, endeffector)` with an explicit iteration
budget for the ancestor-resolution loop. -/
def forward_kinematics (r : Robot) (endeffector : String) (fuel : Nat) :
    FKResult :=
  match r.group_dict.lookup endeffector with
  | none => .keyError endeffector
  | some g =>
    match resolveChainAux r.parentOf fuel endeffector g.parent [endeffector] with
    | .running => .running
    | .keyError n => .keyError n
    | .ok path => fkFold r path identity_transformation

/-- The group matrix getter in state-threaded form; modelled from the
spec: a pure read of the current state. -/
def KinematicGroup.get_transformation_matrixS (g : KinematicGroup) :
    Mat4 × KinematicGroup :=
  (g.get_transformation_matrix, g)

/-- The multiplication loop of `forward_kinematics`, threading the robot
through each group-matrix read. -/
def fkFoldS (r : Robot) : List String → Mat4 → FKResult × Robot
  | [], m => (.ok m, r)
  | k :: ks, m =>
    match r.group_dict.lookup k with
    | none => (.keyError k, r)
    | some g =>
      let (hmt, g') := g.get_transformation_matrixS
      fkFoldS { r with group_dict := alistSet r.group_dict k g' } ks (matMul m hmt)

/-- `forward_kinematics` in state-threaded form, returning the robot as
left by the call. -/
def forward_kinematicsS (r : Robot) (endeffector : String) (fuel : Nat) :
    FKResult × Robot :=
  match r.group_dict.lookup endeffector with
  | none => (.keyError endeffector, r)
  | some g =>
    match resolveChainAux r.parentOf fuel endeffector g.parent [endeffector] with
    | .running => (.running, r)
    | .keyError n => (.keyError n, r)
    | .ok path => fkFoldS r path identity_transformation

/-- Outcome of the symbolic-key collection of `Robot.get_symbolic_rep`. -/
inductive SymResult
  | ok (keys : List (String × String))
  | keyError (name : String)
  | running
deriving DecidableEq, Repr

/-- The per-group symbolic-key collection of `Robot.get_symbolic_rep`:
one `(transformation name, parameter name)` pair per declared state
variable, in chain order. -/
def symKeysOfGroup (g : KinematicGroup) : List (String × String) :=
  g.vtrafos.flatMap (fun t => t.state.map (fun p => (t.name, p.1)))

/-- The key-collection loop of `Robot.get_symbolic_rep` over the resolved
path (the symbolic matrix itself lives in the external substrate and is
not modelled; the free-unknown provenance list is). -/
def symFold (r : Robot) : List String → List (String × String) → SymResult
  | [], acc => .ok acc
  | k :: ks, acc =>
    match r.group_dict.lookup k with
    | none => .keyError k
    | some g => symFold r ks (acc ++ symKeysOfGroup g)

/-- The chain-resolution and free-unknown collection performed by
`Robot.get_symbolic_rep`, with an explicit iteration budget for the
ancestor-resolution loop. -/
def Robot.get_symbolic_rep_keys (r : Robot) (endeffector : String) (fuel : Nat) :
    SymResult :=
  match r.group_dict.lookup endeffector with
  | none => .keyError endeffector
  | some g =>
    match resolveChainAux r.parentOf fuel endeffector g.parent [endeffector] with
    | .running => .running
    | .keyError n => .keyError n
    | .ok path => symFold r path []

/-- Errors arising in `SimpleInvKinSolver`. -/
inductive SolveError
  /-- The explicit non-convergence signal of the external substrate. -/
  | nonConvergence
  /-- A `KeyError` raised by `_virtual_to_solver_state` when the initial
  guess lacks an entry. -/
  | missingKey (key : String)
  /-- The `RuntimeError` of `solve_virtual`'s arity check, with the
  actual and expected lengths. -/
  | arityMismatch (got expected : Nat)
deriving DecidableEq, Repr

/-- The solver object: the provenance list `_symbolic_keys` of the free
unknowns (in flat variable order) and the compiled parametric problem.
Modelled from the spec: the external solving substrate, once compiled,
maps an initial guess and a bound target parameter to either a flat
solution vector or an explicit non-convergence signal. -/
structure SimpleInvKinSolver where
  symbolic_keys : List (String × String)
  inv_kin_solver : List ℤ → List ℤ → Except SolveError (List ℤ)

/-- `SimpleInvKinSolver._virtual_to_solver_state`: read
`virtual_state[outer][inner]` for each symbolic key in order; a missing
entry raises a `KeyError`. -/
def virtualToSolverState (keys : List (String × String)) (virtual_state : VState) :
    Except SolveError (List ℤ) :=
  match keys with
  | [] => .ok []
  | (o, i) :: ks =>
    match virtual_state.lookup o with
    | none => .error (.missingKey o)
    | some inner =>
      match inner.lookup i with
      | none => .error (.missingKey i)
      | some v => (virtualToSolverState ks virtual_state).map (fun xs => v :: xs)

/-- `SimpleInvKinSolver._solver_to_virtual_state`: scatter the flat
solution vector back into a virtual-state dictionary by provenance. -/
def solverToVirtualState (keys : List (String × String)) (xs : List ℤ) : VState :=
  (keys.zip xs).foldl
    (fun vs p =>
      alistSet vs p.1.1 (alistSet ((vs.lookup p.1.1).getD []) p.1.2 p.2))
    []

/-- The tail of `SimpleInvKinSolver.solve_virtual` after `x0` has been
built: check its length against the number of free unknowns, invoke the
compiled solver, and map the solution back by provenance. -/
def solveVirtualWithX0 (s : SimpleInvKinSolver) (target : List ℤ)
    (x0 : List ℤ) : Except SolveError VState :=
  if x0.length ≠ s.symbolic_keys.length then
    .error (.arityMismatch x0.length s.symbolic_keys.length)
  else
    match s.inv_kin_solver x0 target with
    | .error e => .error e
    | .ok sol => .ok (solverToVirtualState s.symbolic_keys sol)

/-- `SimpleInvKinSolver.solve_virtual`, split after the construction of
`x0` into `solveVirtualWithX0`. -/
def SimpleInvKinSolver.solve_virtual (s : SimpleInvKinSolver)
    (target : List ℤ) (initial_tip : Option VState) :
    Except SolveError VState :=
  match initial_tip with
  | none => solveVirtualWithX0 s target (List.replicate s.symbolic_keys.length 0)
  | some tip =>
    match virtualToSolverState s.symbolic_keys tip with
    | .error e => .error e
    | .ok x0 => solveVirtualWithX0 s target x0

/-- An error of `solve_actuated`: either from the virtual solve or from
the robot-level calls it performs. -/
inductive IKError
  | solve (e : SolveError)
  | robot (e : RobotError)
deriving DecidableEq, Repr

/-- The two robot cells a solver can address: the caller's robot object
and the solver's private deep copy made at construction when
`update_robot=False`.  Python aliasing is modelled by the two-cell heap:
with `update_robot=True` the solver's `_robot` is the caller cell, with
`update_robot=False` it is the clone cell. -/
structure SolverWorld where
  caller : Robot
  clone : Robot

/-- `SimpleInvKinSolver.__init__`'s treatment of the robot argument:
`deepcopy` fills the clone cell with the caller's robot value. -/
def mkSolverWorld (r : Robot) : SolverWorld :=
  { caller := r, clone := r }

/-- Read the solver's `_robot` cell. -/
def solverRobotGet (w : SolverWorld) (update_robot : Bool) : Robot :=
  if update_robot then w.caller else w.clone

/-- Write the solver's `_robot` cell. -/
def solverRobotSet (w : SolverWorld) (update_robot : Bool) (r : Robot) :
    SolverWorld :=
  if update_robot then { w with caller := r } else { w with clone := r }

/-- `SimpleInvKinSolver.solve_actuated`: run `solve_virtual`, optionally
forward the mapping argument, apply the virtual state to the solver's
robot, and read back the aggregated actuated state.  The returned world
reflects all mutations performed. -/
def SimpleInvKinSolver.solve_actuated (s : SimpleInvKinSolver)
    (update_robot : Bool) (w : SolverWorld) (target : List ℤ)
    (initial_tip : Option VState)
    (mapping_argument : Option (List (String × ℤ))) :
    SolverWorld × Except IKError AState :=
  match s.solve_virtual target initial_tip with
  | .error e => (w, .error (.solve e))
  | .ok virtual_state =>
    let r := solverRobotGet w update_robot
    match mapping_argument with
    | some marg =>
      match r.pass_group_arg_v_to_a marg with
      | .error e => (w, .error (.robot e))
      | .ok r =>
        match (r.set_virtual_stateT virtual_state).2 with
        | .error e => (solverRobotSet w update_robot r, .error (.robot e))
        | .ok r =>
          let (st, r) := r.get_actuated_stateS
          (solverRobotSet w update_robot r, .ok st)
    | none =>
      match (r.set_virtual_stateT virtual_state).2 with
      | .error e => (w, .error (.robot e))
      | .ok r =>
        let (st, r) := r.get_actuated_stateS
        (solverRobotSet w update_robot r, .ok st)

/-- The processing of one chain element by the `Robot.__init__` loop:
auto-wrap a bare transformation (warning, parent from the previous
element, first element becomes a root), register the element in the
group dictionary and register its keys. -/
def initStep (lastName : String) (e : ChainElem) (prev : Option String)
    (st : InitState) : Except RobotError InitState :=
  match e with
  | .group g =>
    registerGroupKeys g { st with group_dict := alistSet st.group_dict g.name g }
  | .trafo t =>
    let st := { st with
      warnings := st.warnings ++ [wrapWarning t.name (prev.getD lastName)] }
    match prev with
    | some pname =>
      match st.group_dict.lookup pname with
      | none => .error (.missingGroup pname)
      | some pg =>
        registerGroupKeys (OpenKinematicGroup t.name [t] (some pg.name))
          { st with group_dict := alistSet st.group_dict t.name (OpenKinematicGroup t.name [t] (some pg.name)) }
    | none =>
      registerGroupKeys (OpenKinematicGroup t.name [t] none)
        { st with group_dict := alistSet st.group_dict t.name (OpenKinematicGroup t.name [t] none) }

/-- The `Robot.__init__` loop specialized to a chain of groups (no bare
transformations): on group elements the loop ignores `prev` and
`lastName`, so this is the same computation with the irrelevant
arguments dropped. -/
def groupInit : List KinematicGroup → InitState → Except RobotError InitState
  | [], st => .ok st
  | g :: gs, st =>
    match registerGroupKeys g
        { st with group_dict := alistSet st.group_dict g.name g } with
    | .error err => .error err
    | .ok st' => groupInit gs st'

/-- Look up every group of a resolved path in the robot's group
dictionary (the lookups performed by the multiplication loop of
`forward_kinematics`). -/
def lookupAll (r : Robot) : List String → Option (List KinematicGroup)
  | [] => some []
  | k :: ks =>
    match r.group_dict.lookup k with
    | none => none
    | some g => (lookupAll r ks).map (fun gs => g :: gs)

/-- The name of the element preceding the current position in the
kinematic chain (`str(kinematic_chain[i-1])` for `i > 0`), given the
elements already processed. -/
def prevOf : List ChainElem → Option String → Option String
  | [], prev => prev
  | e :: rest, _ => prevOf rest (some e.str)

/-! ## Concrete instances used as witnesses and counterexamples -/

/-- A mapping function for groups whose actuated state is empty. -/
def stubV2A : VState → AState := fun _ => []

/-- A transformation with no state variables and a constant matrix. -/
def constTrafo (name : String) (m : Mat4) : Transformation :=
  { name := name, state := [], matrix := fun _ => m }

/-- A transformation with one state variable `rx` bound to zero. -/
def rxTrafo (name : String) : Transformation :=
  { name := name, state := [("rx", 0)], matrix := fun _ => identity_transformation }

/-- A group whose parent links form a two-cycle: `A`'s parent is `B`. -/
def grpA : KinematicGroup :=
  { name := "A", parent := "B", vtrafos := [], actuated := [], v2a := stubV2A }

/-- The other half of the two-cycle: `B`'s parent is `A`. -/
def grpB : KinematicGroup :=
  { name := "B", parent := "A", vtrafos := [], actuated := [], v2a := stubV2A }

/-- A robot whose two groups form a parent cycle that never reaches a
root. -/
def cycRobot : Robot :=
  { group_dict := [("A", grpA), ("B", grpB)],
    actuator_group_mapping := [], virtual_group_mapping := [] }

/-- Root group of a three-group chain, translating by 1 along x. -/
def chainA : KinematicGroup :=
  { name := "A", parent := "A", vtrafos := [constTrafo "ta" (transMat 1 0 0)],
    actuated := [], v2a := stubV2A }

/-- Middle group of the chain, translating by 2 along x. -/
def chainB : KinematicGroup :=
  { name := "B", parent := "A", vtrafos := [constTrafo "tb" (transMat 2 0 0)],
    actuated := [], v2a := stubV2A }

/-- Target group of the chain, translating by 4 along x. -/
def chainC : KinematicGroup :=
  { name := "C", parent := "B", vtrafos := [constTrafo "tc" (transMat 4 0 0)],
    actuated := [], v2a := stubV2A }

/-- The three-group chain robot `A → B → C` with `A` the root. -/
def chainRobot : Robot :=
  { group_dict := [("A", chainA), ("B", chainB), ("C", chainC)],
    actuator_group_mapping := [], virtual_group_mapping := [] }

/-- A root group declaring actuator `m`. -/
def dupG1 : KinematicGroup :=
  { name := "G1", parent := "G1", vtrafos := [rxTrafo "t1"],
    actuated := [("m", 0)], v2a := stubV2A }

/-- A second group also declaring actuator `m`. -/
def dupG2 : KinematicGroup :=
  { name := "G2", parent := "G1", vtrafos := [rxTrafo "t2"],
    actuated := [("m", 0)], v2a := stubV2A }

/-- A root group used as the predecessor of an auto-wrapped
transformation. -/
def wrapBase : KinematicGroup :=
  { name := "base", parent := "base", vtrafos := [], actuated := [],
    v2a := stubV2A }

/-- A bare transformation placed in a kinematic chain. -/
def wrapT : Transformation := constTrafo "T1" (transMat 1 0 0)

/-- The robot built from `[wrapBase, wrapT]`: the bare transformation
was wrapped into a singleton Open group with parent `base` and
registered under its own name. -/
def wrapRobot : Robot :=
  { group_dict := [("base", wrapBase),
      ("T1", OpenKinematicGroup "T1" [wrapT] (some "base"))],
    actuator_group_mapping := [], virtual_group_mapping := [] }

/-- A group owning two virtual keys (`t1`, `t2`) and two actuated keys
(`a1`, `a2`). -/
def grpG : KinematicGroup :=
  { name := "G", parent := "G", vtrafos := [rxTrafo "t1", rxTrafo "t2"],
    actuated := [("a1", 0), ("a2", 0)], v2a := stubV2A }

/-- A group owning one virtual key (`t3`) and one actuated key (`b1`). -/
def grpH : KinematicGroup :=
  { name := "H", parent := "G", vtrafos := [rxTrafo "t3"],
    actuated := [("b1", 0)], v2a := stubV2A }

/-- A two-group robot used to exercise the state-routing code. -/
def svRobot : Robot :=
  { group_dict := [("G", grpG), ("H", grpH)],
    actuator_group_mapping := [("a1", "G"), ("a2", "G"), ("b1", "H")],
    virtual_group_mapping := [("t1", "G"), ("t2", "G"), ("t3", "H")] }

/-- The two-group robot after `set_actuated_state
{a1: 1, b1: 2, a2: 3}`: each group received one batched setter call. -/
def svRobotA : Robot :=
  { group_dict := [("G", grpG.set_actuated_state [("a1", 1), ("a2", 3)]),
                   ("H", grpH.set_actuated_state [("b1", 2)])],
    actuator_group_mapping := [("a1", "G"), ("a2", "G"), ("b1", "H")],
    virtual_group_mapping := [("t1", "G"), ("t2", "G"), ("t3", "H")] }

/-- The two-group robot after `set_virtual_state` on keys `t1` and
`t3`. -/
def svRobotV : Robot :=
  { group_dict := [("G", grpG.set_virtual_state [("t1", [("rx", 1)])]),
                   ("H", grpH.set_virtual_state [("t3", [("rx", 5)])])],
    actuator_group_mapping := [("a1", "G"), ("a2", "G"), ("b1", "H")],
    virtual_group_mapping := [("t1", "G"), ("t2", "G"), ("t3", "H")] }

/-- A compiled solver with one free unknown whose solution visibly
derives from the substrate's output (it adds 41 to each entry of the
initial guess). -/
def sId : SimpleInvKinSolver :=
  { symbolic_keys := [("t", "p")],
    inv_kin_solver := fun x0 _ => .ok (x0.map (fun v => v + 41)) }

/-- An initial guess carrying a surplus entry `q`: its flat arity is 2
against 1 free unknown. -/
def guessExtra : VState := [("t", [("p", 1), ("q", 5)])]

/-- An initial guess missing the entry for the free unknown `(t, p)`. -/
def guessMissing : VState := [("t", [("z", 0)])]

/-- The total number of scalar entries of a virtual-state dictionary
(the length of the flat vector the claim speaks of). -/
def flatArity (v : VState) : Nat :=
  (v.map (fun p => p.2.length)).sum

/-- A compiled solver that always signals non-convergence. -/
def sFail : SimpleInvKinSolver :=
  { symbolic_keys := [("t", "p")],
    inv_kin_solver := fun _ _ => .error .nonConvergence }

/-! ## General lemmas -/

/-- One unfolding step of the ancestor-resolution loop. -/
theorem resolveChainAux_succ (pa : String → Option String) (n : Nat)
    (ck cp : String) (acc : List String) :
    resolveChainAux pa (n+1) ck cp acc =
      if cp = ck then .ok acc
      else
        match pa cp with
        | none => .keyError cp
        | some p => resolveChainAux pa n cp p (cp :: acc) := rfl

/-- On the two-cycle robot, the resolution loop is still running after
any number of iterations, from either of the two alternating loop
states. -/
theorem cycRobot_resolve_running : ∀ (fuel : Nat) (acc : List String),
    resolveChainAux cycRobot.parentOf fuel "A" "B" acc = .running ∧
    resolveChainAux cycRobot.parentOf fuel "B" "A" acc = .running := by
  intro fuel
  induction fuel with
  | zero => exact fun _ => ⟨rfl, rfl⟩
  | succ n ih =>
    intro acc
    have hBA : cycRobot.parentOf "B" = some "A" := rfl
    have hAB : cycRobot.parentOf "A" = some "B" := rfl
    constructor
    · rw [resolveChainAux_succ, if_neg (by decide), hBA]
      exact (ih _).2
    · rw [resolveChainAux_succ, if_neg (by decide), hAB]
      exact (ih _).1

/-- Claim C1, amended:  Ancestor-chain resolution has no depth guard: on a
robot whose parent links form a cycle that never reaches a root, the
`while` loop shared by `forward_kinematics` and `Robot.get_symbolic_rep`
never exits — after any number of iterations it is still running, and no
topology error is ever raised. -/
theorem cycle_resolution_never_terminates (fuel : Nat) :
    forward_kinematics cycRobot "A" fuel = .running ∧
    cycRobot.get_symbolic_rep_keys "A" fuel = .running := by
  have h := (cycRobot_resolve_running fuel ["A"]).1
  constructor
  · have hfk : forward_kinematics cycRobot "A" fuel =
        (match resolveChainAux cycRobot.parentOf fuel "A" "B" ["A"] with
         | .running => FKResult.running
         | .keyError n => .keyError n
         | .ok path => fkFold cycRobot path identity_transformation) := rfl
    rw [hfk, h]
  · have hsym : cycRobot.get_symbolic_rep_keys "A" fuel =
        (match resolveChainAux cycRobot.parentOf fuel "A" "B" ["A"] with
         | .running => SymResult.running
         | .keyError n => .keyError n
         | .ok path => symFold cycRobot path []) := rfl
    rw [hsym, h]

set_option maxRecDepth 8000 in
/-- Claim C1, counterexample:  The claim asserts a depth guard of at most
the total group count (here 2) that detects the cycle and raises a
topology error.  On the two-group cycle robot, after 2 loop-condition
checks — and equally after 1000 — `forward_kinematics` and the chain
resolution of `get_symbolic_rep` have neither returned nor raised any
error: the loop is simply still running, so no such guard exists. -/
theorem cycle_no_topology_error_at_group_count :
    forward_kinematics cycRobot "A" 2 = .running ∧
    forward_kinematics cycRobot "A" 1000 = .running ∧
    cycRobot.get_symbolic_rep_keys "A" 2 = .running := by
  refine ⟨rfl, ?_, rfl⟩
  have h := (cycRobot_resolve_running 1000 ["A"]).1
  have hfk : forward_kinematics cycRobot "A" 1000 =
      (match resolveChainAux cycRobot.parentOf 1000 "A" "B" ["A"] with
       | .running => FKResult.running
       | .keyError n => .keyError n
       | .ok path => fkFold cycRobot path identity_transformation) := rfl
  rw [hfk, h]

/-- Claim C5:  With the default `update_robot=False`, the solver works on a
private deep copy of the robot (the clone cell initially holds the
caller's robot value), and `solve_actuated` — for every target, optional
initial guess and optional mapping argument, and on every outcome —
leaves the caller's robot cell, and with it the caller's virtual and
actuated state, unchanged. -/
theorem solve_actuated_leaves_caller_robot_unchanged
    (s : SimpleInvKinSolver) (r : Robot) (target : List ℤ)
    (tip : Option VState) (marg : Option (List (String × ℤ))) :
    (mkSolverWorld r).clone = r ∧
    ((s.solve_actuated false (mkSolverWorld r) target tip marg).1).caller = r := by
  refine ⟨rfl, ?_⟩
  unfold SimpleInvKinSolver.solve_actuated
  repeat' split
  all_goals dsimp only
  repeat' split
  all_goals rfl

/-- If `x0` has the expected length, `solveVirtualWithX0` invokes the
compiled solver and passes its outcome through. -/
theorem solveVirtualWithX0_len_eq (s : SimpleInvKinSolver) (target : List ℤ)
    (x0 : List ℤ) (h : x0.length = s.symbolic_keys.length) :
    solveVirtualWithX0 s target x0 =
      match s.inv_kin_solver x0 target with
      | .error e => .error e
      | .ok sol => .ok (solverToVirtualState s.symbolic_keys sol) := by
  unfold solveVirtualWithX0
  rw [if_neg (by simp [h])]

/-- A successful `solveVirtualWithX0` comes from a solution vector
returned by the compiled solver. -/
theorem solveVirtualWithX0_ok (s : SimpleInvKinSolver) (target : List ℤ)
    (x0 : List ℤ) (v : VState)
    (h : solveVirtualWithX0 s target x0 = .ok v) :
    ∃ sol, s.inv_kin_solver x0 target = .ok sol ∧
      v = solverToVirtualState s.symbolic_keys sol := by
  unfold solveVirtualWithX0 at h
  by_cases hlen : x0.length ≠ s.symbolic_keys.length
  · rw [if_pos hlen] at h
    cases h
  · rw [if_neg hlen] at h
    cases hs : s.inv_kin_solver x0 target with
    | error e => rw [hs] at h; cases h
    | ok sol => rw [hs] at h; cases h; exact ⟨sol, rfl, rfl⟩

/-- Claim C4:  A failed solve is propagated, never masked: if the compiled
solver signals an error (in particular non-convergence on an unreachable
target) on the initial vector actually used, `solve_virtual` returns
that very error; and whenever `solve_virtual` does return a virtual
state, that state is the provenance-mapped image of a solution vector
the compiled solver actually returned — never a default or zero
substitute. -/
theorem solve_virtual_propagates_failure (s : SimpleInvKinSolver)
    (target : List ℤ) :
    (∀ e : SolveError,
      s.inv_kin_solver (List.replicate s.symbolic_keys.length 0) target = .error e →
      s.solve_virtual target none = .error e) ∧
    ∀ (tip : Option VState) (v : VState),
      s.solve_virtual target tip = .ok v →
      ∃ x0 sol, s.inv_kin_solver x0 target = .ok sol ∧
        v = solverToVirtualState s.symbolic_keys sol := by
  constructor
  · intro e he
    show solveVirtualWithX0 s target (List.replicate s.symbolic_keys.length 0) = _
    rw [solveVirtualWithX0_len_eq s target _ (by simp), he]
  · intro tip v hv
    cases tip with
    | none =>
      exact ⟨_, solveVirtualWithX0_ok s target _ v hv⟩
    | some t =>
      have hv' : (match virtualToSolverState s.symbolic_keys t with
          | .error e => Except.error e
          | .ok x0 => solveVirtualWithX0 s target x0) = Except.ok v := hv
      cases hc : virtualToSolverState s.symbolic_keys t with
      | error e => rw [hc] at hv'; cases hv'
      | ok x0 => rw [hc] at hv'; exact ⟨x0, solveVirtualWithX0_ok s target x0 v hv'⟩

/-- Claim C4, witness:  A solver that always signals non-convergence has
it propagated unchanged, and `sId`'s returned state is the mapped image
of the solution vector its substrate returned. -/
theorem solve_virtual_propagates_failure_witness :
    sFail.solve_virtual [0, 0, 0] none = .error .nonConvergence ∧
    ∃ x0 sol, sId.inv_kin_solver x0 [0, 0, 0] = .ok sol ∧
      [("t", [("p", (41 : ℤ))])] = solverToVirtualState sId.symbolic_keys sol :=
  ⟨(solve_virtual_propagates_failure sFail [0, 0, 0]).1 .nonConvergence rfl,
   (solve_virtual_propagates_failure sId [0, 0, 0]).2 none
     [("t", [("p", (41 : ℤ))])] rfl⟩

/-- A successful `_virtual_to_solver_state` conversion always yields
exactly one value per symbolic key. -/
theorem virtualToSolverState_ok_length (vs : VState) :
    ∀ (ks : List (String × String)) (xs : List ℤ),
      virtualToSolverState ks vs = .ok xs → xs.length = ks.length := by
  intro ks
  induction ks with
  | nil => intro xs h; cases h; rfl
  | cons p ks ih =>
    intro xs h
    unfold virtualToSolverState at h
    split at h
    · cases h
    · split at h
      · cases h
      · cases hr : virtualToSolverState ks vs with
        | error e => rw [hr] at h; simp [Except.map] at h
        | ok xs' =>
          rw [hr] at h
          simp only [Except.map, Except.ok.injEq] at h
          subst h
          simpa using ih xs' hr

/-- The only error `_virtual_to_solver_state` can raise is a `KeyError`
for a missing entry. -/
theorem virtualToSolverState_error_missingKey (vs : VState) :
    ∀ (ks : List (String × String)) (e : SolveError),
      virtualToSolverState ks vs = .error e → ∃ k, e = .missingKey k := by
  intro ks
  induction ks with
  | nil => intro e h; cases h
  | cons p ks ih =>
    intro e h
    unfold virtualToSolverState at h
    split at h
    · cases h; exact ⟨p.1, rfl⟩
    · split at h
      · cases h; exact ⟨p.2, rfl⟩
      · cases hr : virtualToSolverState ks vs with
        | error e2 =>
          rw [hr] at h
          simp only [Except.map, Except.error.injEq] at h
          subst h
          exact ih e2 hr
        | ok xs' => rw [hr] at h; simp [Except.map] at h

/-- Claim C7, counterexample:  The claim requires a state-shape error
before the compiled solver is invoked whenever the initial guess maps to
a flat vector whose arity differs from the free-unknown count.  The
guess `guessExtra` has flat arity 2 against 1 free unknown, yet
`solve_virtual` raises nothing: it invokes the compiled solver (whose
output, 1 + 41 = 42, is visible in the result) and returns normally —
the surplus entry `q` is silently ignored. -/
theorem surplus_guess_not_rejected :
    flatArity guessExtra = 2 ∧ sId.symbolic_keys.length = 1 ∧
    sId.solve_virtual [0, 0, 0] (some guessExtra) =
      .ok [("t", [("p", (42 : ℤ))])] :=
  ⟨rfl, rfl, rfl⟩

/-- Claim C7, amended:  `_virtual_to_solver_state` reads one value per free
unknown, so a mismatch can only surface as a `KeyError` for a missing
entry, raised and propagated before the compiled solver is invoked;
whenever the conversion succeeds, the flat vector has exactly the
free-unknown count, so the explicit arity check (`RuntimeError`) never
fires and the solver is invoked directly — surplus guess entries are
ignored. -/
theorem initial_guess_conversion_behaviour (s : SimpleInvKinSolver)
    (target : List ℤ) (tip : VState) :
    (∀ e, virtualToSolverState s.symbolic_keys tip = .error e →
      (∃ k, e = .missingKey k) ∧ s.solve_virtual target (some tip) = .error e) ∧
    ∀ x0, virtualToSolverState s.symbolic_keys tip = .ok x0 →
      x0.length = s.symbolic_keys.length ∧
      s.solve_virtual target (some tip) =
        (match s.inv_kin_solver x0 target with
         | .error e => Except.error e
         | .ok sol => Except.ok (solverToVirtualState s.symbolic_keys sol)) := by
  constructor
  · intro e he
    refine ⟨virtualToSolverState_error_missingKey tip s.symbolic_keys e he, ?_⟩
    show (match virtualToSolverState s.symbolic_keys tip with
      | .error e => Except.error e
      | .ok x0 => solveVirtualWithX0 s target x0) = Except.error e
    rw [he]
  · intro x0 hx
    have hlen := virtualToSolverState_ok_length tip s.symbolic_keys x0 hx
    refine ⟨hlen, ?_⟩
    show (match virtualToSolverState s.symbolic_keys tip with
      | .error e => Except.error e
      | .ok x0 => solveVirtualWithX0 s target x0) = _
    rw [hx]
    exact solveVirtualWithX0_len_eq s target x0 hlen

/-- Claim C7 amended, witness:  A guess missing the entry for `(t, p)`
yields the propagated `KeyError`; the surplus guess converts to the
one-value vector `[1]` and goes straight to the solver. -/
theorem initial_guess_conversion_behaviour_witness :
    ((∃ k, SolveError.missingKey "p" = .missingKey k) ∧
      sId.solve_virtual [0, 0, 0] (some guessMissing) =
        .error (.missingKey "p")) ∧
    ([(1 : ℤ)].length = sId.symbolic_keys.length ∧
      sId.solve_virtual [0, 0, 0] (some guessExtra) =
        (match sId.inv_kin_solver [1] [0, 0, 0] with
         | .error e => Except.error e
         | .ok sol => Except.ok (solverToVirtualState sId.symbolic_keys sol))) :=
  ⟨(initial_guess_conversion_behaviour sId [0, 0, 0] guessMissing).1
      (.missingKey "p") rfl,
   (initial_guess_conversion_behaviour sId [0, 0, 0] guessExtra).2 [1] rfl⟩

/-- `List.lookup` on a cons cell, with propositional equality. -/
theorem lookup_cons {α : Type} (k a : String) (b : α) (rest : List (String × α)) :
    List.lookup k ((a, b) :: rest) = if k = a then some b else List.lookup k rest := by
  simp only [List.lookup]
  by_cases h : k = a
  · simp [h]
  · simp [h, beq_eq_false_iff_ne.mpr h]

/-- `List.lookup` over an appended list prefers the first list. -/
theorem lookup_append {α : Type} (k : String) :
    ∀ (l1 l2 : List (String × α)),
      List.lookup k (l1 ++ l2) =
        match List.lookup k l1 with
        | some v => some v
        | none => List.lookup k l2 := by
  intro l1
  induction l1 with
  | nil => intro l2; rfl
  | cons p rest ih =>
    obtain ⟨a, b⟩ := p
    intro l2
    by_cases h : k = a
    · simp [List.cons_append, lookup_cons, h]
    · simp only [List.cons_append, lookup_cons, if_neg h]
      exact ih l2

/-- A lookup succeeds exactly when the key occurs. -/
theorem lookup_isSome_iff {α : Type} (k : String) :
    ∀ m : List (String × α), (List.lookup k m).isSome ↔ k ∈ alistKeys m := by
  intro m
  induction m with
  | nil => simp [alistKeys]
  | cons p rest ih =>
    obtain ⟨a, b⟩ := p
    rw [lookup_cons]
    by_cases h : k = a
    · simp [h, alistKeys]
    · rw [if_neg h]
      simp only [alistKeys, List.map_cons, List.mem_cons]
      rw [alistKeys] at ih
      simp [h, ih]

/-- A successful lookup is a member of the list. -/
theorem lookup_mem {α : Type} (k : String) :
    ∀ (m : List (String × α)) (v : α), List.lookup k m = some v → (k, v) ∈ m := by
  intro m
  induction m with
  | nil => intro v h; cases h
  | cons p rest ih =>
    obtain ⟨a, b⟩ := p
    intro v h
    rw [lookup_cons] at h
    by_cases hk : k = a
    · rw [if_pos hk] at h
      cases h
      subst hk
      exact List.mem_cons_self ..
    · rw [if_neg hk] at h
      exact List.mem_cons_of_mem _ (ih v h)

/-- With unique keys, membership determines the lookup. -/
theorem mem_nodup_lookup {α : Type} (k : String) (v : α) :
    ∀ m : List (String × α), (alistKeys m).Nodup → (k, v) ∈ m →
      List.lookup k m = some v := by
  intro m
  induction m with
  | nil => intro _ hm; cases hm
  | cons p rest ih =>
    obtain ⟨a, b⟩ := p
    intro hnd hm
    rw [alistKeys, List.map_cons, List.nodup_cons] at hnd
    rcases List.mem_cons.mp hm with heq | htail
    · cases heq
      rw [lookup_cons, if_pos rfl]
    · have hka : k ≠ a := by
        intro hka
        subst hka
        exact hnd.1 (List.mem_map.mpr ⟨(k, v), htail, rfl⟩)
      rw [lookup_cons, if_neg hka]
      exact ih hnd.2 htail

/-- Re-setting a key to its current value leaves the dict unchanged. -/
theorem alistSet_lookup_self {α : Type} (k : String) (v : α) :
    ∀ m : List (String × α), List.lookup k m = some v → alistSet m k v = m := by
  intro m
  induction m with
  | nil => intro h; cases h
  | cons p rest ih =>
    obtain ⟨a, b⟩ := p
    intro h
    rw [lookup_cons] at h
    unfold alistSet
    by_cases hk : a = k
    · rw [if_pos hk]
      rw [if_pos hk.symm] at h
      cases h
      rw [hk]
    · rw [if_neg hk]
      rw [if_neg (fun he => hk he.symm)] at h
      rw [ih h]

/-- After `d[k] = v`, looking up `k` yields `v`. -/
theorem lookup_alistSet_self {α : Type} (k : String) (v : α) :
    ∀ m : List (String × α), List.lookup k (alistSet m k v) = some v := by
  intro m
  induction m with
  | nil => simp [alistSet, lookup_cons]
  | cons p rest ih =>
    obtain ⟨a, b⟩ := p
    unfold alistSet
    by_cases hk : a = k
    · rw [if_pos hk, lookup_cons, if_pos rfl]
    · rw [if_neg hk, lookup_cons, if_neg (fun he => hk he.symm)]
      exact ih

/-- `d[k2] = v` does not affect the lookup of a different key. -/
theorem lookup_alistSet_ne {α : Type} (k k2 : String) (v : α) (h : k ≠ k2) :
    ∀ m : List (String × α), List.lookup k (alistSet m k2 v) = List.lookup k m := by
  intro m
  induction m with
  | nil => simp [alistSet, lookup_cons, h]
  | cons p rest ih =>
    obtain ⟨a, b⟩ := p
    unfold alistSet
    by_cases hk : a = k2
    · rw [if_pos hk, lookup_cons, lookup_cons, if_neg h,
        if_neg (fun he => h (he.trans hk))]
    · rw [if_neg hk, lookup_cons, lookup_cons]
      by_cases hka : k = a
      · rw [if_pos hka, if_pos hka]
      · rw [if_neg hka, if_neg hka]
        exact ih

/-- Every entry of `alistSet m k v` is the new entry or an old one. -/
theorem alistSet_mem {α : Type} (k : String) (v : α) :
    ∀ (m : List (String × α)) (q : String × α),
      q ∈ alistSet m k v → q = (k, v) ∨ q ∈ m := by
  intro m
  induction m with
  | nil =>
    intro q hq
    simp [alistSet] at hq
    exact Or.inl hq
  | cons p rest ih =>
    obtain ⟨a, b⟩ := p
    intro q hq
    unfold alistSet at hq
    by_cases hk : a = k
    · rw [if_pos hk] at hq
      rcases List.mem_cons.mp hq with h1 | h2
      · exact Or.inl h1
      · exact Or.inr (List.mem_cons_of_mem _ h2)
    · rw [if_neg hk] at hq
      rcases List.mem_cons.mp hq with h1 | h2
      · exact Or.inr (h1 ▸ List.mem_cons_self ..)
      · rcases ih q h2 with h3 | h4
        · exact Or.inl h3
        · exact Or.inr (List.mem_cons_of_mem _ h4)

/-- Modifying the values at one key preserves the key list. -/
theorem alistKeys_map_value {α : Type} (g : String) (f : α → α) :
    ∀ m : List (String × α),
      alistKeys (m.map (fun p => if p.1 = g then (p.1, f p.2) else p)) =
        alistKeys m := by
  intro m
  unfold alistKeys
  rw [List.map_map]
  apply List.map_congr_left
  intro p _
  by_cases hk : p.1 = g
  · simp [hk]
  · simp [hk]

/-- Looking up the modified key maps the old value. -/
theorem lookup_map_value_eq {α : Type} (g : String) (f : α → α) :
    ∀ m : List (String × α),
      List.lookup g (m.map (fun p => if p.1 = g then (p.1, f p.2) else p)) =
        (List.lookup g m).map f := by
  intro m
  induction m with
  | nil => rfl
  | cons p rest ih =>
    obtain ⟨a, b⟩ := p
    simp only [List.map_cons]
    by_cases hk : a = g
    · subst hk
      rw [show (if ((a : String), b).1 = a then ((a, b).1, f (a, b).2)
            else (a, b)) = (a, f b) by simp]
      rw [lookup_cons, if_pos rfl, lookup_cons, if_pos rfl]
      rfl
    · rw [show (if ((a : String), b).1 = g then ((a, b).1, f (a, b).2)
            else (a, b)) = (a, b) by simp [hk]]
      rw [lookup_cons, if_neg (fun he => hk he.symm), lookup_cons,
        if_neg (fun he => hk he.symm)]
      exact ih

/-- Looking up an unmodified key is unaffected by the modification. -/
theorem lookup_map_value_ne {α : Type} (k g : String) (f : α → α) (h : k ≠ g) :
    ∀ m : List (String × α),
      List.lookup k (m.map (fun p => if p.1 = g then (p.1, f p.2) else p)) =
        List.lookup k m := by
  intro m
  induction m with
  | nil => rfl
  | cons p rest ih =>
    obtain ⟨a, b⟩ := p
    simp only [List.map_cons]
    by_cases hk : a = g
    · subst hk
      rw [show (if ((a : String), b).1 = a then ((a, b).1, f (a, b).2)
            else (a, b)) = (a, f b) by simp]
      rw [lookup_cons, if_neg h, lookup_cons, if_neg h]
      exact ih
    · rw [show (if ((a : String), b).1 = g then ((a, b).1, f (a, b).2)
            else (a, b)) = (a, b) by simp [hk]]
      rw [lookup_cons, lookup_cons]
      by_cases hka : k = a
      · rw [if_pos hka, if_pos hka]
      · rw [if_neg hka, if_neg hka]
        exact ih

/-- The multiplication loop of `forward_kinematics` multiplies the
matrices of the looked-up groups onto the accumulator, in order. -/
theorem fkFold_lookupAll (r : Robot) :
    ∀ (path : List String) (gs : List KinematicGroup) (m : Mat4),
      lookupAll r path = some gs →
      fkFold r path m =
        .ok ((gs.map KinematicGroup.get_transformation_matrix).foldl matMul m) := by
  intro path
  induction path with
  | nil =>
    intro gs m h
    cases h
    rfl
  | cons k ks ih =>
    intro gs m h
    unfold lookupAll at h
    split at h
    · cases h
    next g heq =>
      cases hm : lookupAll r ks with
      | none => rw [hm] at h; cases h
      | some gs2 =>
        rw [hm] at h
        have h2 : some (g :: gs2) = some gs := h
        cases h2
        unfold fkFold
        simp only [heq]
        exact ih gs2 (matMul m g.get_transformation_matrix) hm

/-- Claim C3:  Whenever the ancestor chain of the target group resolves to
the base-to-target path `G1 (root), …, Gn (target)`, `forward_kinematics`
returns the product `identity · M(G1) · … · M(Gn)` of the groups'
current transformation matrices, multiplied in base-to-target order. -/
theorem forward_kinematics_chain_product (r : Robot) (endeffector : String)
    (fuel : Nat) (path : List String) (gs : List KinematicGroup)
    (hres : r.resolveChain endeffector fuel = .ok path)
    (hgs : lookupAll r path = some gs) :
    forward_kinematics r endeffector fuel =
      .ok ((gs.map KinematicGroup.get_transformation_matrix).foldl matMul
        identity_transformation) := by
  unfold Robot.resolveChain at hres
  unfold forward_kinematics
  split at hres
  · cases hres
  next g heq =>
    rw [hres]
    exact fkFold_lookupAll r path gs identity_transformation hgs

/-- Claim C3, witness:  On the three-group chain `A → B → C` of
translations by 1, 2 and 4 along x, the resolved path is
`[A, B, C]` and the forward kinematics is the ordered product — the
translation by 7. -/
theorem forward_kinematics_chain_product_witness :
    chainRobot.resolveChain "C" 10 = .ok ["A", "B", "C"] ∧
    lookupAll chainRobot ["A", "B", "C"] = some [chainA, chainB, chainC] ∧
    forward_kinematics chainRobot "C" 10 =
      .ok (([chainA, chainB, chainC].map
        KinematicGroup.get_transformation_matrix).foldl matMul
          identity_transformation) ∧
    forward_kinematics chainRobot "C" 10 = .ok (transMat 7 0 0) :=
  ⟨rfl, rfl,
   forward_kinematics_chain_product chainRobot "C" 10 ["A", "B", "C"]
     [chainA, chainB, chainC] rfl rfl,
   by decide⟩

/-- The state-threaded multiplication loop computes the same value as the
plain one and leaves the robot unchanged (each group-matrix read returns
the group as it was). -/
theorem fkFoldS_eq (r : Robot) :
    ∀ (path : List String) (m : Mat4),
      fkFoldS r path m = (fkFold r path m, r) := by
  intro path
  induction path with
  | nil => intro m; rfl
  | cons k ks ih =>
    intro m
    unfold fkFoldS fkFold
    cases heq : r.group_dict.lookup k with
    | none => rfl
    | some g =>
      dsimp only [KinematicGroup.get_transformation_matrixS]
      rw [alistSet_lookup_self k g r.group_dict heq]
      exact ih (matMul m g.get_transformation_matrix)

/-- The state-threaded actuated-state read leaves the robot unchanged. -/
theorem getActuatedLoop_snd :
    ∀ (ks : List String) (r : Robot) (acc : AState),
      (getActuatedLoop r ks acc).2 = r := by
  intro ks
  induction ks with
  | nil => intro r acc; rfl
  | cons k ks ih =>
    intro r acc
    unfold getActuatedLoop
    cases heq : r.group_dict.lookup k with
    | none => rfl
    | some g =>
      dsimp only [KinematicGroup.get_actuated_stateS]
      rw [alistSet_lookup_self k g r.group_dict heq]
      exact ih _ _

/-- Claim C9:  `forward_kinematics` is a pure function of the current
state: threaded through every read it performs, the robot comes back
unchanged and the returned matrix is the same as the plain computation's;
the actuated-state read also leaves the robot unchanged, so a preceding
`get_actuated_state` cannot affect the result. -/
theorem forward_kinematics_is_pure (r : Robot) (endeffector : String)
    (fuel : Nat) :
    forward_kinematicsS r endeffector fuel =
      (forward_kinematics r endeffector fuel, r) ∧
    r.get_actuated_stateS = (r.get_actuated_state, r) ∧
    forward_kinematics r.get_actuated_stateS.2 endeffector fuel =
      forward_kinematics r endeffector fuel := by
  have hget : r.get_actuated_stateS.2 = r := getActuatedLoop_snd _ r []
  refine ⟨?_, ?_, by rw [hget]⟩
  · unfold forward_kinematicsS forward_kinematics
    cases heq : r.group_dict.lookup endeffector with
    | none => rfl
    | some g =>
      dsimp only
      cases hres : resolveChainAux r.parentOf fuel endeffector g.parent
          [endeffector] with
      | running => rfl
      | keyError n => rfl
      | ok path => exact fkFoldS_eq r path identity_transformation
  · unfold Robot.get_actuated_state
    exact Prod.ext rfl hget

/-- The only error the batching phase can raise is a `KeyError` for an
unregistered actuator key. -/
theorem buildGrouping_error_shape (amap : List (String × String)) :
    ∀ (state : List (String × ℤ)) (acc : List (String × AState))
      (e : RobotError),
      buildGrouping amap state acc = .error e →
      ∃ k, e = .missingActuatorKey k ∧ List.lookup k amap = none := by
  intro state
  induction state with
  | nil => intro acc e h; cases h
  | cons p rest ih =>
    obtain ⟨key, v⟩ := p
    intro acc e h
    unfold buildGrouping at h
    split at h
    next hkey =>
      cases h
      exact ⟨key, rfl, hkey⟩
    next gname hkey => exact ih _ e h

/-- If any key of the argument is unregistered, the batching phase
raises. -/
theorem buildGrouping_missing_errors (amap : List (String × String)) :
    ∀ (state : List (String × ℤ)) (acc : List (String × AState)) (k : String),
      k ∈ alistKeys state → List.lookup k amap = none →
      ∃ e, buildGrouping amap state acc = .error e := by
  intro state
  induction state with
  | nil =>
    intro acc k hk _
    simp [alistKeys] at hk
  | cons p rest ih =>
    obtain ⟨key, v⟩ := p
    intro acc k hk hmiss
    unfold buildGrouping
    cases ho : List.lookup key amap with
    | none => exact ⟨_, rfl⟩
    | some gname =>
      have hcons : alistKeys ((key, v) :: rest) = key :: alistKeys rest := rfl
      rw [hcons] at hk
      rcases List.mem_cons.mp hk with h1 | h2
      · subst h1
        rw [hmiss] at ho
        cases ho
      · exact ih _ k h2 hmiss

/-- Claim C10:  `Robot.set_actuated_state` is atomic with respect to
unknown keys: if any key of the argument is not a registered actuator
name, the batching phase raises a `KeyError` for an unregistered key and
no group setter is invoked (the invocation trace is empty), so no group
state is mutated. -/
theorem unknown_actuator_key_atomic (r : Robot) (state : List (String × ℤ))
    (k : String) (hk : k ∈ alistKeys state)
    (hmiss : List.lookup k r.actuator_group_mapping = none) :
    (r.set_actuated_stateT state).1 = [] ∧
    ∃ k2, (r.set_actuated_stateT state).2 = .error (.missingActuatorKey k2) ∧
      List.lookup k2 r.actuator_group_mapping = none := by
  obtain ⟨e, he⟩ :=
    buildGrouping_missing_errors r.actuator_group_mapping state [] k hk hmiss
  obtain ⟨k2, hk2, hk2m⟩ :=
    buildGrouping_error_shape r.actuator_group_mapping state [] e he
  subst hk2
  unfold Robot.set_actuated_stateT
  rw [he]
  exact ⟨rfl, k2, rfl, hk2m⟩

/-- Claim C10, witness:  Setting `{a1: 1, zz: 2}` on the two-group robot,
where `zz` is not a registered actuator, raises and performs no setter
call. -/
theorem unknown_actuator_key_atomic_witness :
    ("zz" ∈ alistKeys [("a1", (1 : ℤ)), ("zz", 2)]) ∧
    List.lookup "zz" svRobot.actuator_group_mapping = none ∧
    (svRobot.set_actuated_stateT [("a1", 1), ("zz", 2)]).1 = [] ∧
    ∃ k2, (svRobot.set_actuated_stateT [("a1", 1), ("zz", 2)]).2 =
        .error (.missingActuatorKey k2) ∧
      List.lookup k2 svRobot.actuator_group_mapping = none := by
  refine ⟨by decide, rfl, ?_, ?_⟩
  · exact (unknown_actuator_key_atomic svRobot _ "zz" (by decide) rfl).1
  · exact (unknown_actuator_key_atomic svRobot _ "zz" (by decide) rfl).2

/-- Claim C6, counterexample:  The claim says `set_virtual_state` batches
per owning group, invoking each owning group's setter exactly once per
Robot-level call.  Setting two virtual keys `t1`, `t2` both owned by
group `G` produces two setter invocations on `G`, each with a singleton
dictionary — not one batched call. -/
theorem set_virtual_state_not_batched :
    (svRobot.set_virtual_stateT [("t1", [("rx", 1)]), ("t2", [("rx", 2)])]).1 =
      [("G", [("t1", [("rx", 1)])]), ("G", [("t2", [("rx", 2)])])] ∧
    ((svRobot.set_virtual_stateT
        [("t1", [("rx", 1)]), ("t2", [("rx", 2)])]).1.map Prod.fst) =
      ["G", "G"] :=
  ⟨rfl, rfl⟩

/-- When the whole `set_virtual_state` call succeeds, its invocation
trace is one singleton-dictionary call per key of the argument, routed
to the key's owning group. -/
theorem setVirtualLoop_trace :
    ∀ (state : List (String × AState)) (r rv : Robot),
      (setVirtualLoop r state).2 = .ok rv →
      (setVirtualLoop r state).1 =
        state.map (fun p =>
          ((List.lookup p.1 r.virtual_group_mapping).getD "", [p])) := by
  intro state
  induction state with
  | nil => intro r rv _; rfl
  | cons p rest ih =>
    obtain ⟨key, val⟩ := p
    intro r rv h
    unfold setVirtualLoop at h ⊢
    cases hv : List.lookup key r.virtual_group_mapping with
    | none => rw [hv] at h; simp at h
    | some gname =>
      rw [hv] at h
      dsimp only at h ⊢
      cases hg : List.lookup gname r.group_dict with
      | none => rw [hg] at h; simp at h
      | some g =>
        rw [hg] at h
        dsimp only at h ⊢
        rw [List.map_cons]
        dsimp only
        rw [hv, ih _ rv h]
        rfl

/-- When the delegation loop succeeds, its invocation trace is exactly
the batched grouping: one setter call per grouping entry, in order. -/
theorem applyGrouping_trace :
    ∀ (grouping : List (String × AState)) (r ra : Robot),
      (applyGrouping r grouping).2 = .ok ra →
      (applyGrouping r grouping).1 = grouping := by
  intro grouping
  induction grouping with
  | nil => intro r ra _; rfl
  | cons p rest ih =>
    obtain ⟨gname, sub⟩ := p
    intro r ra h
    unfold applyGrouping at h ⊢
    cases hg : List.lookup gname r.group_dict with
    | none => rw [hg] at h; simp at h
    | some g =>
      rw [hg] at h
      dsimp only at h ⊢
      rw [ih _ ra h]

/-- The batching phase, when it succeeds, keeps the grouping keys
unique. -/
theorem buildGrouping_nodup (amap : List (String × String)) :
    ∀ (state : List (String × ℤ)) (acc grouping : List (String × AState)),
      buildGrouping amap state acc = .ok grouping →
      (alistKeys acc).Nodup → (alistKeys grouping).Nodup := by
  intro state
  induction state with
  | nil =>
    intro acc grouping h hnd
    cases h
    exact hnd
  | cons p rest ih =>
    obtain ⟨key, v⟩ := p
    intro acc grouping h hnd
    unfold buildGrouping at h
    split at h
    · cases h
    next g0 hkey =>
      dsimp only at h
      refine ih _ grouping h ?_
      rw [alistKeys_map_value g0 (fun s => s ++ [(key, v)])]
      by_cases hs : (List.lookup g0 acc).isSome = true
      · rw [if_pos hs]
        exact hnd
      · rw [if_neg hs]
        have hnotin : g0 ∉ alistKeys acc :=
          fun hmem => hs ((lookup_isSome_iff g0 acc).mpr hmem)
        rw [show alistKeys (acc ++ [(g0, [])]) = alistKeys acc ++ [g0] by
          simp [alistKeys]]
        simp [List.nodup_append, hnd, hnotin]

/-- Full characterization of the batching phase: on success, the batched
sub-dictionary of every owning group consists of exactly the argument
entries that group owns, in argument order, merged onto whatever the
accumulator already held for it. -/
theorem buildGrouping_lookup (amap : List (String × String)) :
    ∀ (state : List (String × ℤ)) (acc grouping : List (String × AState)),
      buildGrouping amap state acc = .ok grouping →
      ∀ gname : String,
        List.lookup gname grouping =
          match List.lookup gname acc with
          | some s => some (s ++ state.filter
              (fun p => List.lookup p.1 amap == some gname))
          | none =>
            if state.filter (fun p => List.lookup p.1 amap == some gname) = []
            then none
            else some (state.filter
              (fun p => List.lookup p.1 amap == some gname)) := by
  intro state
  induction state with
  | nil =>
    intro acc grouping h gname
    cases h
    cases hl : List.lookup gname acc with
    | some s => simp
    | none => simp
  | cons p rest ih =>
    obtain ⟨key, v⟩ := p
    intro acc grouping h gname
    unfold buildGrouping at h
    split at h
    · cases h
    next g0 hkey =>
      dsimp only at h
      have hstep := ih _ grouping h gname
      rw [hstep, List.filter_cons]
      dsimp only
      by_cases hgg : g0 = gname
      · subst hgg
        have hcond : (List.lookup key amap == some g0) = true := by
          rw [hkey]; exact beq_self_eq_true _
        rw [hcond, lookup_map_value_eq g0 (fun s => s ++ [(key, v)])]
        cases hacc : List.lookup g0 acc with
        | some s =>
          have hcs : ((some s : Option AState).isSome = true) := rfl
          rw [if_pos hcs, hacc]
          simp
        | none =>
          have hcn : ¬((none : Option AState).isSome = true) := by simp
          rw [if_neg hcn, lookup_append, hacc, lookup_cons, if_pos rfl]
          simp
      · have hne : gname ≠ g0 := fun he => hgg he.symm
        have hcond : (List.lookup key amap == some gname) = false := by
          rw [hkey]
          exact beq_eq_false_iff_ne.mpr (by simp [hgg])
        rw [hcond, lookup_map_value_ne gname g0 (fun s => s ++ [(key, v)]) hne]
        by_cases hs : (List.lookup g0 acc).isSome = true
        · rw [if_pos hs]
          cases List.lookup gname acc <;> simp
        · rw [if_neg hs, lookup_append]
          cases hacc : List.lookup gname acc with
          | some s => simp
          | none =>
            rw [lookup_cons, if_neg hne]
            simp

/-- Claim C6, amended:  `Robot.set_actuated_state` routes each key through
the actuator map and batches per owning group: on a successful call the
setter-invocation trace is exactly the batched grouping, whose group
names are unique (one setter call per owning group), each called with
exactly the argument entries that group owns, in argument order, and a
group appears exactly when it owns some argument key.
`Robot.set_virtual_state`, however, does not batch: it routes each key
individually, invoking the owning group's setter once per key with a
singleton dictionary. -/
theorem robot_state_routing (r ra rv : Robot) (astate : List (String × ℤ))
    (vstate : List (String × AState)) (grouping : List (String × AState))
    (hbg : buildGrouping r.actuator_group_mapping astate [] = .ok grouping)
    (ha : (r.set_actuated_stateT astate).2 = .ok ra)
    (hv : (r.set_virtual_stateT vstate).2 = .ok rv) :
    (r.set_actuated_stateT astate).1 = grouping ∧
    (alistKeys grouping).Nodup ∧
    (∀ gname sub, (gname, sub) ∈ grouping →
      sub = astate.filter
        (fun p => List.lookup p.1 r.actuator_group_mapping == some gname)) ∧
    (∀ gname, gname ∈ alistKeys grouping ↔
      astate.filter
        (fun p => List.lookup p.1 r.actuator_group_mapping == some gname)
        ≠ []) ∧
    (r.set_virtual_stateT vstate).1 =
      vstate.map (fun p =>
        ((List.lookup p.1 r.virtual_group_mapping).getD "", [p])) := by
  have hchar := buildGrouping_lookup r.actuator_group_mapping astate [] grouping hbg
  have hnodup := buildGrouping_nodup r.actuator_group_mapping astate [] grouping
    hbg (by simp [alistKeys])
  have htraceA : (r.set_actuated_stateT astate).1 = grouping := by
    unfold Robot.set_actuated_stateT at ha ⊢
    rw [hbg] at ha ⊢
    exact applyGrouping_trace grouping r ra ha
  refine ⟨htraceA, hnodup, ?_, ?_, setVirtualLoop_trace vstate r rv hv⟩
  · intro gname sub hmem
    have hl := mem_nodup_lookup gname sub grouping hnodup hmem
    have hc := hchar gname
    rw [hl] at hc
    dsimp only [List.lookup] at hc
    by_cases hf : astate.filter
        (fun p => List.lookup p.1 r.actuator_group_mapping == some gname) = []
    · rw [if_pos hf] at hc
      cases hc
    · rw [if_neg hf] at hc
      cases hc
      rfl
  · intro gname
    rw [← lookup_isSome_iff]
    have hc := hchar gname
    dsimp only [List.lookup] at hc
    rw [hc]
    by_cases hf : astate.filter
        (fun p => List.lookup p.1 r.actuator_group_mapping == some gname) = []
    · rw [if_pos hf]
      simp [hf]
    · rw [if_neg hf]
      simp [hf]

/-- Claim C6 amended, witness:  On the two-group robot, setting actuators
`{a1: 1, b1: 2, a2: 3}` produces exactly two batched setter calls —
`G` with `{a1: 1, a2: 3}` and `H` with `{b1: 2}` — while setting virtual
keys `{t1: …, t3: …}` produces one singleton call per key. -/
theorem robot_state_routing_witness :
    buildGrouping svRobot.actuator_group_mapping
      [("a1", 1), ("b1", 2), ("a2", 3)] [] =
      .ok [("G", [("a1", 1), ("a2", 3)]), ("H", [("b1", 2)])] ∧
    (svRobot.set_actuated_stateT [("a1", 1), ("b1", 2), ("a2", 3)]).1 =
      [("G", [("a1", 1), ("a2", 3)]), ("H", [("b1", 2)])] ∧
    (svRobot.set_virtual_stateT [("t1", [("rx", 1)]), ("t3", [("rx", 5)])]).1 =
      [("G", [("t1", [("rx", 1)])]), ("H", [("t3", [("rx", 5)])])] := by
  have h := robot_state_routing svRobot svRobotA svRobotV
    [("a1", 1), ("b1", 2), ("a2", 3)]
    [("t1", [("rx", 1)]), ("t3", [("rx", 5)])]
    [("G", [("a1", 1), ("a2", 3)]), ("H", [("b1", 2)])] rfl rfl rfl
  refine ⟨rfl, h.1, ?_⟩
  rw [h.2.2.2.2]
  rfl

/-- The key-registration loop only ever raises the duplicate error it
was given. -/
theorem addMappingKeys_error (err : RobotError) (gname : String) :
    ∀ (ks : List String) (m : List (String × String)) (e : RobotError),
      addMappingKeys err gname ks m = .error e → e = err := by
  intro ks
  induction ks with
  | nil => intro m e h; cases h
  | cons k0 ks ih =>
    intro m e h
    unfold addMappingKeys at h
    split at h
    · cases h; rfl
    · exact ih _ e h

/-- Keys already registered stay registered through the loop. -/
theorem addMappingKeys_persist (err : RobotError) (gname : String) :
    ∀ (ks : List String) (m m' : List (String × String)),
      addMappingKeys err gname ks m = .ok m' →
      ∀ k, (List.lookup k m).isSome = true → (List.lookup k m').isSome = true := by
  intro ks
  induction ks with
  | nil => intro m m' h k hk; cases h; exact hk
  | cons k0 ks ih =>
    intro m m' h k hk
    unfold addMappingKeys at h
    split at h
    · cases h
    · refine ih _ m' h k ?_
      rw [lookup_append]
      cases hl : List.lookup k m with
      | none => rw [hl] at hk; cases hk
      | some v => rfl

/-- Every key of the list ends up registered when the loop succeeds. -/
theorem addMappingKeys_adds (err : RobotError) (gname : String) :
    ∀ (ks : List String) (m m' : List (String × String)),
      addMappingKeys err gname ks m = .ok m' →
      ∀ k, k ∈ ks → (List.lookup k m').isSome = true := by
  intro ks
  induction ks with
  | nil => intro m m' h k hk; cases hk
  | cons k0 ks ih =>
    intro m m' h k hk
    unfold addMappingKeys at h
    split at h
    · cases h
    · rcases List.mem_cons.mp hk with h1 | h2
      · subst h1
        refine addMappingKeys_persist err gname ks _ m' h k ?_
        rw [lookup_append]
        cases hl : List.lookup k m with
        | some v => rfl
        | none => rw [lookup_cons, if_pos rfl]; rfl
      · exact ih _ m' h k h2

/-- Registering a key that is already mapped raises the duplicate
error. -/
theorem addMappingKeys_dup (err : RobotError) (gname : String) :
    ∀ (ks : List String) (m : List (String × String)) (k : String),
      k ∈ ks → (List.lookup k m).isSome = true →
      addMappingKeys err gname ks m = .error err := by
  intro ks
  induction ks with
  | nil => intro m k hk _; cases hk
  | cons k0 ks ih =>
    intro m k hk hsome
    unfold addMappingKeys
    by_cases h0 : (List.lookup k0 m).isSome = true
    · rw [if_pos h0]
    · rw [if_neg h0]
      rcases List.mem_cons.mp hk with h1 | h2
      · subst h1
        exact absurd hsome h0
      · refine ih _ k h2 ?_
        rw [lookup_append]
        cases hl : List.lookup k m with
        | none => rw [hl] at hsome; cases hsome
        | some v => rfl

/-- `registerGroupKeys` only raises the two naming-conflict errors. -/
theorem registerGroupKeys_error (g : KinematicGroup) (st : InitState)
    (e : RobotError) (h : registerGroupKeys g st = .error e) :
    e = .dupActuator ∨ e = .dupVirtual := by
  unfold registerGroupKeys at h
  split at h
  · split at h
    next heq => cases h; exact Or.inl (addMappingKeys_error _ _ _ _ _ heq)
    next amap heq =>
      split at h
      next heq2 => cases h; exact Or.inr (addMappingKeys_error _ _ _ _ _ heq2)
      next => cases h
  · cases h

/-- Successful registration preserves previously registered keys. -/
theorem registerGroupKeys_persist (g : KinematicGroup) (st st' : InitState)
    (h : registerGroupKeys g st = .ok st') (k : String) :
    ((List.lookup k st.amap).isSome = true →
      (List.lookup k st'.amap).isSome = true) ∧
    ((List.lookup k st.vmap).isSome = true →
      (List.lookup k st'.vmap).isSome = true) := by
  unfold registerGroupKeys at h
  split at h
  · split at h
    next => cases h
    next amap heq =>
      split at h
      next => cases h
      next vmap heq2 =>
        cases h
        exact ⟨addMappingKeys_persist _ _ _ _ _ heq k,
          addMappingKeys_persist _ _ _ _ _ heq2 k⟩
  · cases h
    exact ⟨fun hk => hk, fun hk => hk⟩

/-- Successful registration of an eligible group registers all of its
actuated and virtual keys. -/
theorem registerGroupKeys_adds (g : KinematicGroup) (st st' : InitState)
    (h : registerGroupKeys g st = .ok st')
    (hv : g.get_virtual_state ≠ []) (k : String) :
    (k ∈ alistKeys g.get_actuated_state →
      (List.lookup k st'.amap).isSome = true) ∧
    (k ∈ alistKeys g.get_virtual_state →
      (List.lookup k st'.vmap).isSome = true) := by
  unfold registerGroupKeys at h
  rw [if_pos hv] at h
  split at h
  next => cases h
  next amap heq =>
    split at h
    next => cases h
    next vmap heq2 =>
      cases h
      exact ⟨fun hk => addMappingKeys_adds _ _ _ _ _ heq k hk,
        fun hk => addMappingKeys_adds _ _ _ _ _ heq2 k hk⟩

/-- Registering an eligible group that redeclares an already-mapped
actuated or virtual key fails with a naming conflict. -/
theorem registerGroupKeys_conflict (g : KinematicGroup) (st : InitState)
    (hv : g.get_virtual_state ≠ []) (k : String)
    (hdup : ((List.lookup k st.amap).isSome = true ∧
        k ∈ alistKeys g.get_actuated_state) ∨
      ((List.lookup k st.vmap).isSome = true ∧
        k ∈ alistKeys g.get_virtual_state)) :
    ∃ e, registerGroupKeys g st = .error e ∧ e.isNamingConflict = true := by
  unfold registerGroupKeys
  rw [if_pos hv]
  rcases hdup with ⟨hsome, hmem⟩ | ⟨hsome, hmem⟩
  · rw [addMappingKeys_dup .dupActuator g.name _ _ k hmem hsome]
    exact ⟨.dupActuator, rfl, rfl⟩
  · cases ha : addMappingKeys .dupActuator g.name
        (alistKeys g.get_actuated_state) st.amap with
    | error e =>
      have he := addMappingKeys_error _ _ _ _ _ ha
      subst he
      exact ⟨.dupActuator, rfl, rfl⟩
    | ok amap =>
      rw [addMappingKeys_dup .dupVirtual g.name _ _ k hmem hsome]
      exact ⟨.dupVirtual, rfl, rfl⟩

/-- On chains consisting only of groups, `Robot.__init__`'s loop is the
specialized `groupInit` (the group branch never consults `prev` or
`lastName`). -/
theorem initLoop_groups_eq (lastName : String) :
    ∀ (gs : List KinematicGroup) (prev : Option String) (st : InitState),
      initLoop lastName (gs.map ChainElem.group) prev st = groupInit gs st := by
  intro gs
  induction gs with
  | nil => intro prev st; rfl
  | cons g gs ih =>
    intro prev st
    rw [List.map_cons]
    unfold initLoop groupInit
    dsimp only
    cases hr : registerGroupKeys g
        { st with group_dict := alistSet st.group_dict g.name g } with
    | error e => rfl
    | ok st' => exact ih _ _

/-- `groupInit` processes an appended chain sequentially. -/
theorem groupInit_seq :
    ∀ (gs1 gs2 : List KinematicGroup) (st : InitState),
      groupInit (gs1 ++ gs2) st =
        match groupInit gs1 st with
        | .error e => .error e
        | .ok st' => groupInit gs2 st' := by
  intro gs1
  induction gs1 with
  | nil => intro gs2 st; rfl
  | cons g gs1 ih =>
    intro gs2 st
    rw [List.cons_append]
    conv_lhs => rw [groupInit]
    conv_rhs => rw [groupInit]
    cases hr : registerGroupKeys g
        { st with group_dict := alistSet st.group_dict g.name g } with
    | error e => rfl
    | ok st' => exact ih gs2 st'

/-- On group-only chains, construction errors are naming conflicts. -/
theorem groupInit_error :
    ∀ (gs : List KinematicGroup) (st : InitState) (e : RobotError),
      groupInit gs st = .error e → e.isNamingConflict = true := by
  intro gs
  induction gs with
  | nil => intro st e h; cases h
  | cons g gs ih =>
    intro st e h
    unfold groupInit at h
    split at h
    next heq =>
      cases h
      rcases registerGroupKeys_error g _ e heq with h1 | h1 <;> rw [h1] <;> rfl
    next st' heq => exact ih st' e h

/-- Keys registered before a group-only chain is processed are still
registered afterwards. -/
theorem groupInit_persist :
    ∀ (gs : List KinematicGroup) (st st' : InitState),
      groupInit gs st = .ok st' →
      ∀ k,
        ((List.lookup k st.amap).isSome = true →
          (List.lookup k st'.amap).isSome = true) ∧
        ((List.lookup k st.vmap).isSome = true →
          (List.lookup k st'.vmap).isSome = true) := by
  intro gs
  induction gs with
  | nil => intro st st' h k; cases h; exact ⟨fun hk => hk, fun hk => hk⟩
  | cons g gs ih =>
    intro st st' h k
    unfold groupInit at h
    split at h
    next => cases h
    next st2 heq =>
      have h1 := registerGroupKeys_persist g _ st2 heq k
      have h2 := ih st2 st' h k
      exact ⟨fun hk => h2.1 (h1.1 hk), fun hk => h2.2 (h1.2 hk)⟩

/-- Claim C2:  Constructing a Robot from a group list in which two groups
declare an actuated-state key with the same name, or two groups declare
a virtual-state key with the same name, raises a naming-conflict
`KeyError` and aborts construction.  (A group declaring any key has a
non-empty virtual state per the spec — Open groups' two states are
identical and Closed groups carry both — stated here as the two
non-emptiness hypotheses; construction performs no group-state mutation
anywhere, so the error precedes any mutation.) -/
theorem duplicate_key_aborts_construction
    (l1 l2 l3 : List KinematicGroup) (g1 g2 : KinematicGroup) (k : String)
    (h1 : g1.get_virtual_state ≠ []) (h2 : g2.get_virtual_state ≠ [])
    (hdup : (k ∈ alistKeys g1.get_actuated_state ∧
        k ∈ alistKeys g2.get_actuated_state) ∨
      (k ∈ alistKeys g1.get_virtual_state ∧
        k ∈ alistKeys g2.get_virtual_state)) :
    ∃ e, Robot.init ((l1 ++ g1 :: (l2 ++ g2 :: l3)).map ChainElem.group) =
        .error e ∧ e.isNamingConflict = true := by
  suffices h : ∃ e, groupInit (l1 ++ g1 :: (l2 ++ g2 :: l3)) {} = .error e ∧
      e.isNamingConflict = true by
    obtain ⟨e, he, hc⟩ := h
    refine ⟨e, ?_, hc⟩
    unfold Robot.init
    rw [initLoop_groups_eq, he]
  rw [groupInit_seq]
  cases hA : groupInit l1 {} with
  | error e => exact ⟨e, rfl, groupInit_error l1 {} e hA⟩
  | ok st1 =>
    show ∃ e, groupInit (g1 :: (l2 ++ g2 :: l3)) st1 = .error e ∧
      e.isNamingConflict = true
    unfold groupInit
    cases hr1 : registerGroupKeys g1
        { st1 with group_dict := alistSet st1.group_dict g1.name g1 } with
    | error e =>
      refine ⟨e, rfl, ?_⟩
      rcases registerGroupKeys_error g1 _ e hr1 with h | h <;> rw [h] <;> rfl
    | ok st2 =>
      have hreg := registerGroupKeys_adds g1 _ st2 hr1 h1 k
      show ∃ e, groupInit (l2 ++ g2 :: l3) st2 = .error e ∧
        e.isNamingConflict = true
      rw [groupInit_seq]
      cases hB : groupInit l2 st2 with
      | error e => exact ⟨e, rfl, groupInit_error l2 st2 e hB⟩
      | ok st3 =>
        have hpers := groupInit_persist l2 st2 st3 hB k
        show ∃ e, groupInit (g2 :: l3) st3 = .error e ∧
          e.isNamingConflict = true
        unfold groupInit
        obtain ⟨e, he, hc⟩ := registerGroupKeys_conflict g2
          { st3 with group_dict := alistSet st3.group_dict g2.name g2 } h2 k
          (by
            rcases hdup with ⟨hk1, hk2⟩ | ⟨hk1, hk2⟩
            · exact Or.inl ⟨hpers.1 (hreg.1 hk1), hk2⟩
            · exact Or.inr ⟨hpers.2 (hreg.2 hk1), hk2⟩)
        rw [he]
        exact ⟨e, rfl, hc⟩

/-- Claim C2, witness:  Two root groups both declaring the actuator `m`
(each with a non-empty virtual state) make construction fail with the
naming-conflict error. -/
theorem duplicate_key_aborts_construction_witness :
    dupG1.get_virtual_state ≠ [] ∧ dupG2.get_virtual_state ≠ [] ∧
    ("m" ∈ alistKeys dupG1.get_actuated_state ∧
      "m" ∈ alistKeys dupG2.get_actuated_state) ∧
    ∃ e, Robot.init (([] ++ dupG1 :: ([] ++ dupG2 :: [])).map ChainElem.group) =
        .error e ∧ e.isNamingConflict = true := by
  refine ⟨by decide, by decide, ⟨by decide, by decide⟩, ?_⟩
  exact duplicate_key_aborts_construction [] [] [] dupG1 dupG2 "m"
    (by decide) (by decide) (Or.inl ⟨by decide, by decide⟩)

/-- One step of the `Robot.__init__` loop, factored through `initStep`. -/
theorem initLoop_cons (lastName : String) (e : ChainElem)
    (rest : List ChainElem) (prev : Option String) (st : InitState) :
    initLoop lastName (e :: rest) prev st =
      match initStep lastName e prev st with
      | .error err => .error err
      | .ok st2 => initLoop lastName rest (some e.str) st2 := by
  rw [initLoop.eq_def]
  cases e with
  | group g =>
    unfold initStep
    cases hr : registerGroupKeys g
        { st with group_dict := alistSet st.group_dict g.name g } with
    | error err => rfl
    | ok st2 => rfl
  | trafo t =>
    unfold initStep
    dsimp only
    cases prev with
    | none =>
      dsimp only
      split <;> rfl
    | some pname =>
      dsimp only
      cases hl : List.lookup pname st.group_dict with
      | none => rfl
      | some pg =>
        dsimp only [Option.getD, ChainElem.str]

/-- Key registration never touches the group dictionary or the
warnings. -/
theorem registerGroupKeys_dict (g : KinematicGroup) (st st' : InitState)
    (h : registerGroupKeys g st = .ok st') :
    st'.group_dict = st.group_dict ∧ st'.warnings = st.warnings := by
  unfold registerGroupKeys at h
  split at h
  · split at h
    next => cases h
    next amap heq =>
      split at h
      next => cases h
      next vmap heq2 => cases h; exact ⟨rfl, rfl⟩
  · cases h; exact ⟨rfl, rfl⟩

/-- One loop step registers only under the element's own name, so other
dictionary entries survive. -/
theorem initStep_lookup_mono (lastName : String) (e : ChainElem)
    (prev : Option String) (st st2 : InitState) (n : String)
    (g : KinematicGroup) (h : initStep lastName e prev st = .ok st2)
    (hne : ChainElem.str e ≠ n)
    (hl : List.lookup n st.group_dict = some g) :
    List.lookup n st2.group_dict = some g := by
  cases e with
  | group g2 =>
    unfold initStep at h
    rw [(registerGroupKeys_dict _ _ _ h).1]
    dsimp only
    rw [lookup_alistSet_ne n g2.name g2 (fun he => hne he.symm)]
    exact hl
  | trafo t =>
    unfold initStep at h
    dsimp only at h
    cases prev with
    | none =>
      rw [(registerGroupKeys_dict _ _ _ h).1]
      dsimp only
      rw [lookup_alistSet_ne n t.name _ (fun he => hne he.symm)]
      exact hl
    | some pname =>
      dsimp only at h
      split at h
      next => cases h
      next pg hpg =>
        rw [(registerGroupKeys_dict _ _ _ h).1]
        dsimp only
        rw [lookup_alistSet_ne n t.name _ (fun he => hne he.symm)]
        exact hl

/-- One loop step only appends warnings. -/
theorem initStep_warn_mono (lastName : String) (e : ChainElem)
    (prev : Option String) (st st2 : InitState)
    (h : initStep lastName e prev st = .ok st2) :
    ∀ w ∈ st.warnings, w ∈ st2.warnings := by
  intro w hw
  cases e with
  | group g2 =>
    unfold initStep at h
    rw [(registerGroupKeys_dict _ _ _ h).2]
    exact hw
  | trafo t =>
    unfold initStep at h
    dsimp only at h
    cases prev with
    | none =>
      rw [(registerGroupKeys_dict _ _ _ h).2]
      exact List.mem_append_left _ hw
    | some pname =>
      dsimp only at h
      split at h
      next => cases h
      next pg hpg =>
        rw [(registerGroupKeys_dict _ _ _ h).2]
        exact List.mem_append_left _ hw

/-- One loop step preserves the invariant that every dictionary entry is
registered under its own name. -/
theorem initStep_names (lastName : String) (e : ChainElem)
    (prev : Option String) (st st2 : InitState)
    (h : initStep lastName e prev st = .ok st2)
    (hinv : ∀ p ∈ st.group_dict, (p.2 : KinematicGroup).name = p.1) :
    ∀ p ∈ st2.group_dict, (p.2 : KinematicGroup).name = p.1 := by
  intro p hp
  cases e with
  | group g2 =>
    unfold initStep at h
    rw [(registerGroupKeys_dict _ _ _ h).1] at hp
    dsimp only at hp
    rcases alistSet_mem g2.name g2 st.group_dict p hp with h1 | h2
    · subst h1; rfl
    · exact hinv p h2
  | trafo t =>
    unfold initStep at h
    dsimp only at h
    cases prev with
    | none =>
      rw [(registerGroupKeys_dict _ _ _ h).1] at hp
      dsimp only at hp
      rcases alistSet_mem t.name (OpenKinematicGroup t.name [t] none)
          st.group_dict p hp with h1 | h2
      · subst h1; rfl
      · exact hinv p h2
    | some pname =>
      dsimp only at h
      split at h
      next => cases h
      next pg hpg =>
        rw [(registerGroupKeys_dict _ _ _ h).1] at hp
        dsimp only at hp
        rcases alistSet_mem t.name
            (OpenKinematicGroup t.name [t] (some pg.name))
            st.group_dict p hp with h1 | h2
        · subst h1; rfl
        · exact hinv p h2

/-- Dictionary entries whose name does not reoccur in the remaining
chain survive the loop. -/
theorem initLoop_lookup_mono (lastName : String) :
    ∀ (chain : List ChainElem) (prev : Option String) (st st' : InitState)
      (n : String) (g : KinematicGroup),
      initLoop lastName chain prev st = .ok st' →
      (∀ e ∈ chain, ChainElem.str e ≠ n) →
      List.lookup n st.group_dict = some g →
      List.lookup n st'.group_dict = some g := by
  intro chain
  induction chain with
  | nil => intro prev st st' n g h _ hl; cases h; exact hl
  | cons e rest ih =>
    intro prev st st' n g h hne hl
    rw [initLoop_cons] at h
    split at h
    next => cases h
    next st2 heq =>
      exact ih _ st2 st' n g h
        (fun e2 he2 => hne e2 (List.mem_cons_of_mem _ he2))
        (initStep_lookup_mono lastName e prev st st2 n g heq
          (hne e (List.mem_cons_self _ _)) hl)

/-- Warnings only accumulate through the loop. -/
theorem initLoop_warn_mono (lastName : String) :
    ∀ (chain : List ChainElem) (prev : Option String) (st st' : InitState),
      initLoop lastName chain prev st = .ok st' →
      ∀ w ∈ st.warnings, w ∈ st'.warnings := by
  intro chain
  induction chain with
  | nil => intro prev st st' h w hw; cases h; exact hw
  | cons e rest ih =>
    intro prev st st' h w hw
    rw [initLoop_cons] at h
    split at h
    next => cases h
    next st2 heq =>
      exact ih _ st2 st' h w (initStep_warn_mono lastName e prev st st2 heq w hw)

/-- The loop preserves the name invariant of the group dictionary. -/
theorem initLoop_names (lastName : String) :
    ∀ (chain : List ChainElem) (prev : Option String) (st st' : InitState),
      initLoop lastName chain prev st = .ok st' →
      (∀ p ∈ st.group_dict, (p.2 : KinematicGroup).name = p.1) →
      ∀ p ∈ st'.group_dict, (p.2 : KinematicGroup).name = p.1 := by
  intro chain
  induction chain with
  | nil => intro prev st st' h hinv; cases h; exact hinv
  | cons e rest ih =>
    intro prev st st' h hinv
    rw [initLoop_cons] at h
    split at h
    next => cases h
    next st2 heq =>
      exact ih _ st2 st' h (initStep_names lastName e prev st st2 heq hinv)

/-- The loop processes an appended chain sequentially; the previous-name
argument for the tail is the name of the head chain's last element. -/
theorem initLoop_seq (lastName : String) :
    ∀ (xs ys : List ChainElem) (prev : Option String) (st : InitState),
      initLoop lastName (xs ++ ys) prev st =
        match initLoop lastName xs prev st with
        | .error e => .error e
        | .ok st' => initLoop lastName ys (prevOf xs prev) st' := by
  intro xs
  induction xs with
  | nil => intro ys prev st; rfl
  | cons e xs ih =>
    intro ys prev st
    rw [List.cons_append, initLoop_cons, initLoop_cons]
    cases hs : initStep lastName e prev st with
    | error err => rfl
    | ok st2 =>
      dsimp only
      rw [ih ys (some e.str) st2]
      rfl

/-- Claim C8:  During Robot construction, a bare `Transformation` in the
chain is auto-wrapped into a singleton Open group registered in the
group dictionary under the transformation's name, whose parent is the
preceding list element (the wrap of a first list element becomes a
root: its parent is its own name), and a diagnostic warning mentioning
the transformation is recorded.  Uniqueness of the element names keeps
the registration visible in the finished robot. -/
theorem bare_transformation_auto_wrapped
    (pre post : List ChainElem) (t : Transformation) (r : Robot)
    (warns : List String)
    (hnames : ((pre ++ ChainElem.trafo t :: post).map ChainElem.str).Nodup)
    (hok : Robot.init (pre ++ ChainElem.trafo t :: post) = .ok (r, warns)) :
    List.lookup t.name r.group_dict =
      some (OpenKinematicGroup t.name [t] (prevOf pre none)) ∧
    ∃ ps, wrapWarning t.name ps ∈ warns := by
  have hpostne : ∀ e ∈ post, ChainElem.str e ≠ t.name := by
    intro e he hne
    rw [List.map_append, List.map_cons] at hnames
    have h2 := List.Nodup.of_append_right hnames
    rw [List.nodup_cons] at h2
    have hmem : t.name ∈ List.map ChainElem.str post :=
      hne ▸ List.mem_map_of_mem ChainElem.str he
    exact h2.1 hmem
  unfold Robot.init at hok
  split at hok
  next => cases hok
  next stF heqF =>
    cases hok
    rw [initLoop_seq] at heqF
    cases hpreRes : initLoop
        (((pre ++ ChainElem.trafo t :: post).getLast?).elim "" ChainElem.str)
        pre none {} with
    | error e => rw [hpreRes] at heqF; cases heqF
    | ok st1 =>
      rw [hpreRes] at heqF
      dsimp only at heqF
      rw [initLoop_cons] at heqF
      split at heqF
      next => cases heqF
      next st2 hstep =>
        cases hpv : prevOf pre none with
        | none =>
          rw [hpv] at hstep
          unfold initStep at hstep
          dsimp only at hstep
          have hd := registerGroupKeys_dict _ _ _ hstep
          have hdict : List.lookup t.name st2.group_dict =
              some (OpenKinematicGroup t.name [t] none) := by
            rw [hd.1]
            dsimp only
            exact lookup_alistSet_self t.name _ _
          refine ⟨?_, ?_⟩
          · exact initLoop_lookup_mono _ post _ st2 stF t.name _ heqF
              hpostne hdict
          · have hwmem : wrapWarning t.name (Option.getD none
                (((pre ++ ChainElem.trafo t :: post).getLast?).elim ""
                  ChainElem.str)) ∈ st2.warnings := by
              rw [hd.2]
              exact List.mem_append_right _ (List.mem_singleton_self _)
            exact ⟨_, initLoop_warn_mono _ post _ st2 stF heqF _ hwmem⟩
        | some pname =>
          rw [hpv] at hstep
          unfold initStep at hstep
          dsimp only at hstep
          split at hstep
          next => cases hstep
          next pg hpg =>
            have hinv := initLoop_names _ pre none {} st1 hpreRes
              (by intro p hp; cases hp)
            have hpgname : pg.name = pname :=
              hinv (pname, pg) (lookup_mem pname st1.group_dict pg hpg)
            have hd := registerGroupKeys_dict _ _ _ hstep
            have hdict : List.lookup t.name st2.group_dict =
                some (OpenKinematicGroup t.name [t] (some pname)) := by
              rw [hd.1]
              dsimp only
              rw [← hpgname]
              exact lookup_alistSet_self t.name _ _
            refine ⟨?_, ?_⟩
            · exact initLoop_lookup_mono _ post _ st2 stF t.name _ heqF
                hpostne hdict
            · have hwmem : wrapWarning t.name (Option.getD (some pname)
                  (((pre ++ ChainElem.trafo t :: post).getLast?).elim ""
                    ChainElem.str)) ∈ st2.warnings := by
                rw [hd.2]
                exact List.mem_append_right _ (List.mem_singleton_self _)
              exact ⟨_, initLoop_warn_mono _ post _ st2 stF heqF _ hwmem⟩

/-- Claim C8, witness:  Building a robot from a root group `base` followed
by the bare transformation `T1` registers the auto-wrapped singleton
Open group with parent `base` under the name `T1` and emits the
conversion warning. -/
theorem bare_transformation_auto_wrapped_witness :
    Robot.init ([ChainElem.group wrapBase] ++ ChainElem.trafo wrapT :: []) =
      .ok (wrapRobot, [wrapWarning "T1" "base"]) ∧
    (([ChainElem.group wrapBase] ++ ChainElem.trafo wrapT :: []).map
      ChainElem.str).Nodup ∧
    List.lookup "T1" wrapRobot.group_dict =
      some (OpenKinematicGroup "T1" [wrapT]
        (prevOf [ChainElem.group wrapBase] none)) ∧
    ∃ ps, wrapWarning "T1" ps ∈ [wrapWarning "T1" "base"] := by
  have h := bare_transformation_auto_wrapped [ChainElem.group wrapBase] []
    wrapT wrapRobot [wrapWarning "T1" "base"] (by decide) rfl
  exact ⟨rfl, by decide, h.1, h.2⟩
